import Mathlib

/-!
Shallow embedding of the Carla repository's intrusive doubly-linked list
(`src/source/utils/LinkedList.hpp`, class `AbstractLinkedList` and its heap
subclass `LinkedList`) and of the JUCE MIME-type lookup
(`src/source/modules/juce_gui_basics/native/juce_common_MimeTypes.cpp`).

Nodes are identified by natural numbers; the two link fields of a
`k_list_head` become two total functions `nxt`/`prv` on node ids, and the
node's stored value a function `val`.  The low-level ring primitives
(`INIT_LIST_HEAD`, `list_add`, `list_add_tail`, `list_del`, the splice
family and `list_for_each_safe`) live in `rtmempool/list.h`, which is not
among the sources; they are modelled from the spec's §4.1 node-storage
contract (the classic circular-list boundary relinking it describes).
The `size_t` counter `fCount` is modelled as `Nat`; no verified scenario
exercises the `size_t` wrap-around (a removal is only issued through a
valid iterator, so the count is positive there).  Allocation is modelled
by a monotone supply of fresh node ids plus a list `allocd` of the
currently allocated ids, so that deallocation on failure paths is
observable; allocation failure and value-construction failure (the
constructed-discipline `catch` paths of `_createData`) are modelled by the
boolean parameters `allocOk` and `ctorOk`.
-/

namespace Carla

structure Heap (T : Type) where
  nxt : Nat → Nat
  prv : Nat → Nat
  val : Nat → T
  fresh : Nat
  allocd : List Nat

variable {T : Type}

def Heap.setNxt (h : Heap T) (a b : Nat) : Heap T :=
  { h with nxt := Function.update h.nxt a b }

def Heap.setPrv (h : Heap T) (a b : Nat) : Heap T :=
  { h with prv := Function.update h.prv a b }

def Heap.setVal (h : Heap T) (a : Nat) (v : T) : Heap T :=
  { h with val := Function.update h.val a v }

/-- Modelled from the spec: §4.1 `initialize-empty(sentinel)` — the sentinel's
`previous` and `next` both point to itself (`INIT_LIST_HEAD` of
`rtmempool/list.h`, which is not among the sources). -/
def initListHead (h : Heap T) (s : Nat) : Heap T :=
  (h.setNxt s s).setPrv s s

/-- Modelled from the spec: §4.1 linking of one detached node between two
adjacent ring positions (`__list_add(new, prev, next)` of `rtmempool/list.h`):
`next->prev = new; new->next = next; new->prev = prev; prev->next = new`. -/
def klistAddBetween (h : Heap T) (nw p q : Nat) : Heap T :=
  (((h.setPrv q nw).setNxt nw q).setPrv nw p).setNxt p nw

/-- Modelled from the spec: §4.1 `link-after(node, position)` (`list_add`). -/
def listAdd (h : Heap T) (nw head : Nat) : Heap T :=
  klistAddBetween h nw head (h.nxt head)

/-- Modelled from the spec: §4.1 `link-before(node, position)` (`list_add_tail`). -/
def listAddTail (h : Heap T) (nw head : Nat) : Heap T :=
  klistAddBetween h nw (h.prv head) head

/-- Modelled from the spec: §4.1 `unlink(node)` (`list_del` of
`rtmempool/list.h`): the two neighbours are joined; the unlinked node's own
link fields are left in an unspecified state, modelled as unchanged. -/
def listDel (h : Heap T) (entry : Nat) : Heap T :=
  (h.setPrv (h.nxt entry) (h.prv entry)).setNxt (h.prv entry) (h.nxt entry)

/-- Modelled from the spec: the sentinel-points-to-itself empty test
(`list_empty`). -/
def listEmptyH (h : Heap T) (s : Nat) : Bool :=
  h.nxt s == s

/-- Modelled from the spec: §4.1 `splice-region`
(`__list_splice(list, prev, next)`): the whole run hanging off `list`'s
sentinel is relinked between `prev` and `next` in O(1):
`first->prev = prev; prev->next = first; last->next = next;
next->prev = last`. -/
def klistSplice (h : Heap T) (list p q : Nat) : Heap T :=
  (((h.setPrv (h.nxt list) p).setNxt p (h.nxt list)).setNxt (h.prv list) q).setPrv q
    (h.prv list)

/-- Modelled from the spec: duplicate-link front splice (`list_splice`). -/
def listSplice (h : Heap T) (list head : Nat) : Heap T :=
  if listEmptyH h list then h else klistSplice h list head (h.nxt head)

/-- Modelled from the spec: duplicate-link back splice (`list_splice_tail`). -/
def listSpliceTail (h : Heap T) (list head : Nat) : Heap T :=
  if listEmptyH h list then h else klistSplice h list (h.prv head) head

/-- Modelled from the spec: transfer-mode front splice (`list_splice_init`):
splice then re-initialise the emptied source sentinel. -/
def listSpliceInit (h : Heap T) (list head : Nat) : Heap T :=
  if listEmptyH h list then h
  else initListHead (klistSplice h list head (h.nxt head)) list

/-- Modelled from the spec: transfer-mode back splice (`list_splice_tail_init`). -/
def listSpliceTailInit (h : Heap T) (list head : Nat) : Heap T :=
  if listEmptyH h list then h
  else initListHead (klistSplice h list (h.prv head) head) list

/-- `LinkedList::_allocate` (LinkedList.hpp:453): the heap strategy; a null
result from the allocator is modelled by `ok = false`.  A successful
allocation hands out the next never-used node id. -/
def allocate (h : Heap T) (ok : Bool) : Option Nat × Heap T :=
  if ok then (some h.fresh, { h with fresh := h.fresh + 1, allocd := h.fresh :: h.allocd })
  else (none, h)

/-- `LinkedList::_deallocate` (LinkedList.hpp:458): releases one node's
storage. -/
def deallocate (h : Heap T) (d : Nat) : Heap T :=
  { h with allocd := h.allocd.erase d }

/-- One `AbstractLinkedList` object: its heap, its sentinel node id, the
tracked element count `fCount` and the mutable scratch slot `fRetValue`. -/
structure St (T : Type) where
  heap : Heap T
  sent : Nat
  cnt : Nat
  retVal : T

/-- `AbstractLinkedList::_createData` (LinkedList.hpp:355): under constructed
discipline the placement construction or the assignment may throw, and both
catch blocks deallocate the just-allocated node and report failure
(`ctorOk = false`); a successful construction — and the raw-copy discipline,
whose `memcpy` cannot fail — stores the value (`ctorOk = true`). -/
def createData (h : Heap T) (d : Nat) (v : T) (ctorOk : Bool) : Heap T × Bool :=
  if ctorOk then (h.setVal d v, true) else (deallocate h d, false)

/-- `AbstractLinkedList::_add` (LinkedList.hpp:393). -/
def addImpl (σ : St T) (v : T) (inTail : Bool) (queue : Nat) (allocOk ctorOk : Bool) :
    St T × Bool :=
  match allocate σ.heap allocOk with
  | (some d, h1) =>
    match createData h1 d v ctorOk with
    | (h2, true) =>
      let h3 := if inTail then listAddTail h2 d queue else listAdd h2 d queue
      ({ σ with heap := h3, cnt := σ.cnt + 1 }, true)
    | (h2, false) => ({ σ with heap := h2 }, false)
  | (none, h1) => ({ σ with heap := h1 }, false)

/-- `AbstractLinkedList::append` (LinkedList.hpp:155). -/
def append (σ : St T) (v : T) (allocOk ctorOk : Bool) : St T × Bool :=
  addImpl σ v true σ.sent allocOk ctorOk

/-- `AbstractLinkedList::insert` (LinkedList.hpp:165). -/
def insert (σ : St T) (v : T) (allocOk ctorOk : Bool) : St T × Bool :=
  addImpl σ v false σ.sent allocOk ctorOk

/-- `AbstractLinkedList::Itenerator` (LinkedList.hpp:74): the lookahead
iterator; it stores the `Data*` recorded by `getValue`/`setValue` (`fData`,
null at construction), the current entry, the captured next entry and the
queue (sentinel) pointer. -/
structure Iten where
  fData : Option Nat
  fEntry : Nat
  fEntry2 : Nat
  fQueue : Nat

/-- The `Itenerator(queue)` constructor (LinkedList.hpp:76). -/
def itenMk (h : Heap T) (queue : Nat) : Iten :=
  { fData := none, fEntry := h.nxt queue, fEntry2 := h.nxt (h.nxt queue), fQueue := queue }

/-- `AbstractLinkedList::begin` (LinkedList.hpp:119). -/
def St.begin (σ : St T) : Iten :=
  itenMk σ.heap σ.sent

/-- `Itenerator::valid` (LinkedList.hpp:87). -/
def Iten.valid (it : Iten) : Bool :=
  it.fEntry != it.fQueue

/-- `Itenerator::next` (LinkedList.hpp:92): advance to the captured entry and
re-capture the following one from the current heap. -/
def Iten.next (h : Heap T) (it : Iten) : Iten :=
  { it with fEntry := it.fEntry2, fEntry2 := h.nxt it.fEntry2 }

/-- `Itenerator::getValue` (LinkedList.hpp:98): records the `Data*` in `fData`
and returns the value. -/
def Iten.getValue (h : Heap T) (it : Iten) : Iten × T :=
  ({ it with fData := some it.fEntry }, h.val it.fEntry)

/-- `AbstractLinkedList::appendAt` (LinkedList.hpp:160). -/
def appendAt (σ : St T) (v : T) (it : Iten) (allocOk ctorOk : Bool) : St T × Bool :=
  addImpl σ v true (σ.heap.nxt it.fEntry) allocOk ctorOk

/-- `AbstractLinkedList::insertAt` (LinkedList.hpp:170). -/
def insertAt (σ : St T) (v : T) (it : Iten) (allocOk ctorOk : Bool) : St T × Bool :=
  addImpl σ v false (σ.heap.prv it.fEntry) allocOk ctorOk

/-- `AbstractLinkedList::remove(Itenerator&)` (LinkedList.hpp:250): decrements
the count and unlinks unconditionally, then deallocates the node recorded by
`getValue` (when `getValue` was never called the code returns right after
unlinking and the node leaks). -/
def removeIter (σ : St T) (it : Iten) : St T :=
  let σ1 : St T := { σ with cnt := σ.cnt - 1, heap := listDel σ.heap it.fEntry }
  match it.fData with
  | some d => { σ1 with heap := deallocate σ1.heap d }
  | none => σ1

/-- Loop of `AbstractLinkedList::removeOne` (LinkedList.hpp:264): a
`list_for_each_safe` scan; `dat` is the C++ `data` variable — the last
`list_entry` computed, `none` for its null initialisation.  On a match the
element is unlinked, destroyed and the scan breaks. -/
def removeOneLoop [DecidableEq T] (h : Heap T) (cnt : Nat) (v : T) (sent : Nat)
    (dat : Option Nat) (entry : Nat) : Nat → Heap T × Nat × Option Nat
  | 0 => (h, cnt, dat)
  | fuel + 1 =>
    if entry = sent then (h, cnt, dat)
    else if h.val entry = v then
      (deallocate (listDel h entry) entry, cnt - 1, some entry)
    else removeOneLoop h cnt v sent (some entry) (h.nxt entry) fuel

/-- `AbstractLinkedList::removeOne` (LinkedList.hpp:264): returns
`data != nullptr`. -/
def removeOne [DecidableEq T] (σ : St T) (v : T) : St T × Bool :=
  match removeOneLoop σ.heap σ.cnt v σ.sent none (σ.heap.nxt σ.sent) (σ.heap.fresh + 1) with
  | (h, c, dat) => ({ σ with heap := h, cnt := c }, dat.isSome)

/-- Loop of `AbstractLinkedList::removeAll` (LinkedList.hpp:291): like
`removeOne` but without the break; the next entry is captured before an
unlink, which is what makes the deleting scan safe. -/
def removeAllLoop [DecidableEq T] (h : Heap T) (cnt : Nat) (v : T) (sent : Nat)
    (entry : Nat) : Nat → Heap T × Nat
  | 0 => (h, cnt)
  | fuel + 1 =>
    if entry = sent then (h, cnt)
    else if h.val entry = v then
      removeAllLoop (deallocate (listDel h entry) entry) (cnt - 1) v sent (h.nxt entry) fuel
    else removeAllLoop h cnt v sent (h.nxt entry) fuel

/-- `AbstractLinkedList::removeAll` (LinkedList.hpp:291). -/
def removeAll [DecidableEq T] (σ : St T) (v : T) : St T :=
  match removeAllLoop σ.heap σ.cnt v σ.sent (σ.heap.nxt σ.sent) (σ.heap.fresh + 1) with
  | (h, c) => { σ with heap := h, cnt := c }

/-- Loop of `AbstractLinkedList::clear` (LinkedList.hpp:124): walk the ring
deallocating every node (no unlinking — `_init` rebuilds the sentinel). -/
def clearLoop (h : Heap T) (sent entry : Nat) : Nat → Heap T
  | 0 => h
  | fuel + 1 =>
    if entry = sent then h
    else clearLoop (deallocate h entry) sent (h.nxt entry) fuel

/-- `AbstractLinkedList::clear` (LinkedList.hpp:124). -/
def clear (σ : St T) : St T :=
  let h1 :=
    if σ.cnt ≠ 0 then clearLoop σ.heap σ.sent (σ.heap.nxt σ.sent) (σ.heap.fresh + 1)
    else σ.heap
  { σ with heap := initListHead h1 σ.sent, cnt := 0 }

/-- Loop of `AbstractLinkedList::getAt(index, removeObj)` (LinkedList.hpp:201):
skip `index` entries, then copy the value out and optionally unlink and
destroy the node. -/
def getAtLoop (h : Heap T) (cnt index : Nat) (sent : Nat) (removeObj : Bool) (r : T)
    (i entry : Nat) : Nat → Heap T × Nat × T
  | 0 => (h, cnt, r)
  | fuel + 1 =>
    if entry = sent then (h, cnt, r)
    else if index ≠ i then getAtLoop h cnt index sent removeObj r (i + 1) (h.nxt entry) fuel
    else if removeObj then (deallocate (listDel h entry) entry, cnt - 1, h.val entry)
    else (h, cnt, h.val entry)

/-- `AbstractLinkedList::getAt(index, removeObj)` (LinkedList.hpp:201): out of
bounds (including the empty list) the stale scratch slot is returned and
nothing changes. -/
def getAt (σ : St T) (index : Nat) (removeObj : Bool) : St T × T :=
  if σ.cnt = 0 ∨ index ≥ σ.cnt then (σ, σ.retVal)
  else
    match getAtLoop σ.heap σ.cnt index σ.sent removeObj σ.retVal 0 (σ.heap.nxt σ.sent)
        (σ.heap.fresh + 1) with
    | (h, c, r) => ({ σ with heap := h, cnt := c, retVal := r }, r)

/-- `AbstractLinkedList::spliceAppend(list, init)` (LinkedList.hpp:315), on a
shared heap: `this` is the source (`aSent`, `aCnt`), `list` the destination
(`bSent`, `bCnt`); the result is the heap and the two new counts (source
first). -/
def spliceAppend (h : Heap T) (aSent aCnt bSent bCnt : Nat) (init : Bool) :
    Heap T × Nat × Nat :=
  if init then (listSpliceTailInit h aSent bSent, 0, bCnt + aCnt)
  else (listSpliceTail h aSent bSent, aCnt, bCnt + aCnt)

/-- `AbstractLinkedList::spliceInsert(list, init)` (LinkedList.hpp:330). -/
def spliceInsert (h : Heap T) (aSent aCnt bSent bCnt : Nat) (init : Bool) :
    Heap T × Nat × Nat :=
  if init then (listSpliceInit h aSent bSent, 0, bCnt + aCnt)
  else (listSplice h aSent bSent, aCnt, bCnt + aCnt)

/-- `AbstractLinkedList::count` (LinkedList.hpp:145). -/
def count (σ : St T) : Nat :=
  σ.cnt

/-- `AbstractLinkedList::isEmpty` (LinkedList.hpp:150). -/
def isEmpty (σ : St T) : Bool :=
  σ.cnt == 0

/-- A freshly constructed list (`AbstractLinkedList` constructor + `_init`,
LinkedList.hpp:60 and 387): sentinel node 0, zero count; `d0` models the
indeterminate contents of uninitialised node memory and of the scratch
`fRetValue` slot. -/
def mkSt (d0 : T) : St T :=
  { heap := initListHead ⟨fun _ => 0, fun _ => 0, fun _ => d0, 1, []⟩ 0,
    sent := 0, cnt := 0, retVal := d0 }

/-- Fuel-bounded pointer walk collecting node ids until `stop` is reached
again; `none` when the walk does not close within the fuel. -/
def traverse (f : Nat → Nat) (stop : Nat) : Nat → Nat → Option (List Nat)
  | 0, _ => none
  | fuel + 1, cur =>
    if cur = stop then some []
    else
      match traverse f stop fuel (f cur) with
      | some l => some (cur :: l)
      | none => none

/-- The non-sentinel nodes reachable by following `next` from the sentinel
back to itself. -/
def fwdNodes (σ : St T) : Option (List Nat) :=
  traverse σ.heap.nxt σ.sent (σ.heap.fresh + 1) (σ.heap.nxt σ.sent)

/-- The non-sentinel nodes reachable by following `previous` from the sentinel
back to itself. -/
def bwdNodes (σ : St T) : Option (List Nat) :=
  traverse σ.heap.prv σ.sent (σ.heap.fresh + 1) (σ.heap.prv σ.sent)

def fwdCount (σ : St T) : Option Nat :=
  (fwdNodes σ).map List.length

def bwdCount (σ : St T) : Option Nat :=
  (bwdNodes σ).map List.length

/-- The head-to-tail iteration idiom
`for (it = begin(); it.valid(); it.next()) getValue()`. -/
def iterVisit (h : Heap T) : Iten → Nat → List T
  | _, 0 => []
  | it, fuel + 1 =>
    if it.valid then
      (Iten.getValue h it).2 :: iterVisit h (Iten.next h (Iten.getValue h it).1) fuel
    else []

/-- The values yielded by one full head-to-tail iteration of the list. -/
def visit (σ : St T) : List T :=
  iterVisit σ.heap σ.begin (σ.heap.fresh + 1)

/-- Append the values in order with a succeeding allocator. -/
def appendAll (σ : St T) (vs : List T) : St T :=
  vs.foldl (fun s v => (append s v true true).1) σ

/-- Prepend the values in order with a succeeding allocator. -/
def insertAll (σ : St T) (vs : List T) : St T :=
  vs.foldl (fun s v => (insert s v true true).1) σ

/-- Advance an iterator `i` times. -/
def iterSteps (h : Heap T) (it : Iten) : Nat → Iten
  | 0 => it
  | i + 1 => iterSteps h (Iten.next h it) i

/-- One public mutation of a list, carrying the allocator/constructor outcome
flags for the insertion operations; iterator arguments are reconstructed as
`begin` advanced `i` times, and `remove` is only issued through a valid
iterator after `getValue`, as the iteration protocol requires. -/
inductive Op (T : Type) where
  | append (v : T) (allocOk ctorOk : Bool)
  | insert (v : T) (allocOk ctorOk : Bool)
  | appendAt (v : T) (i : Nat) (allocOk ctorOk : Bool)
  | insertAt (v : T) (i : Nat) (allocOk ctorOk : Bool)
  | removeIter (i : Nat)
  | removeOne (v : T)
  | removeAll (v : T)
  | getAtRemove (i : Nat)
  | clear

def runOp [DecidableEq T] (σ : St T) : Op T → St T
  | .append v a c => (append σ v a c).1
  | .insert v a c => (insert σ v a c).1
  | .appendAt v i a c => (appendAt σ v (iterSteps σ.heap σ.begin i) a c).1
  | .insertAt v i a c => (insertAt σ v (iterSteps σ.heap σ.begin i) a c).1
  | .removeIter i =>
    let it := iterSteps σ.heap σ.begin i
    if it.valid then removeIter σ (Iten.getValue σ.heap it).1 else σ
  | .removeOne v => (removeOne σ v).1
  | .removeAll v => removeAll σ v
  | .getAtRemove i => (getAt σ i true).1
  | .clear => clear σ

/-- Run a sequence of operations on a freshly constructed list. -/
def run [DecidableEq T] (d0 : T) (ops : List (Op T)) : St T :=
  ops.foldl runOp (mkSt d0)

/-- The §8 mid-iteration-removal scenario on a 3-element list: read the first
value, advance, read the second, remove it through the iterator, advance,
read the third, advance past the end.  Returns the three values read, the
final iterator and the final list. -/
def c6script (d0 a b c : T) : (T × T × T) × Iten × St T :=
  let σ := appendAll (mkSt d0) [a, b, c]
  let p1 := Iten.getValue σ.heap σ.begin
  let it1 := Iten.next σ.heap p1.1
  let p2 := Iten.getValue σ.heap it1
  let σ2 := removeIter σ p2.1
  let it2 := Iten.next σ2.heap p2.1
  let p3 := Iten.getValue σ2.heap it2
  let it3 := Iten.next σ2.heap p3.1
  ((p1.2, p2.2, p3.2), it3, σ2)

/-- `f`-links go from `a` through exactly the nodes of `l` and then reach
`b`. -/
def rlinks (f : Nat → Nat) : Nat → List Nat → Nat → Prop
  | a, [], b => f a = b
  | a, x :: l, b => f a = x ∧ rlinks f x l b

/-- The representation invariant of one ring on a heap: the sentinel `s`
carries the node sequence `ns` forward via `nxt` and backward via `prv`, the
ids are distinct and below the allocation watermark, and the tracked count
matches (spec §3, Sequence invariant). -/
structure RingInv (h : Heap T) (s : Nat) (cnt : Nat) (ns : List Nat) : Prop where
  fwd : rlinks h.nxt s ns s
  bwd : rlinks h.prv s ns.reverse s
  nodup : (s :: ns).Nodup
  bound : ∀ n ∈ s :: ns, n < h.fresh
  cntEq : cnt = ns.length

/-- The representation invariant of one list object. -/
abbrev StInv (σ : St T) (ns : List Nat) : Prop :=
  RingInv σ.heap σ.sent σ.cnt ns

/-- A list object is well-formed when some node sequence represents it. -/
def WF (σ : St T) : Prop :=
  ∃ ns, StInv σ ns

/-- `MimeTypeTableEntry::table` (juce_common_MimeTypes.cpp:41): the 641
`(fileExtension, mimeType)` rows, in source order, duplicates included. -/
def mimeTable : List (String × String) :=
  [("3dm", "x-world/x-3dmf"),
   ("3dmf", "x-world/x-3dmf"),
   ("a", "application/octet-stream"),
   ("aab", "application/x-authorware-bin"),
   ("aam", "application/x-authorware-map"),
   ("aas", "application/x-authorware-seg"),
   ("abc", "text/vnd.abc"),
   ("acgi", "text/html"),
   ("afl", "video/animaflex"),
   ("ai", "application/postscript"),
   ("aif", "audio/aiff"),
   ("aif", "audio/x-aiff"),
   ("aifc", "audio/aiff"),
   ("aifc", "audio/x-aiff"),
   ("aiff", "audio/aiff"),
   ("aiff", "audio/x-aiff"),
   ("aim", "application/x-aim"),
   ("aip", "text/x-audiosoft-intra"),
   ("ani", "application/x-navi-animation"),
   ("aos", "application/x-nokia-9000-communicator-add-on-software"),
   ("aps", "application/mime"),
   ("arc", "application/octet-stream"),
   ("arj", "application/arj"),
   ("arj", "application/octet-stream"),
   ("art", "image/x-jg"),
   ("asf", "video/x-ms-asf"),
   ("asm", "text/x-asm"),
   ("asp", "text/asp"),
   ("asx", "application/x-mplayer2"),
   ("asx", "video/x-ms-asf"),
   ("asx", "video/x-ms-asf-plugin"),
   ("au", "audio/basic"),
   ("au", "audio/x-au"),
   ("avi", "application/x-troff-msvideo"),
   ("avi", "video/avi"),
   ("avi", "video/msvideo"),
   ("avi", "video/x-msvideo"),
   ("avs", "video/avs-video"),
   ("bcpio", "application/x-bcpio"),
   ("bin", "application/mac-binary"),
   ("bin", "application/macbinary"),
   ("bin", "application/octet-stream"),
   ("bin", "application/x-binary"),
   ("bin", "application/x-macbinary"),
   ("bm", "image/bmp"),
   ("bmp", "image/bmp"),
   ("bmp", "image/x-windows-bmp"),
   ("boo", "application/book"),
   ("book", "application/book"),
   ("boz", "application/x-bzip2"),
   ("bsh", "application/x-bsh"),
   ("bz", "application/x-bzip"),
   ("bz2", "application/x-bzip2"),
   ("c", "text/plain"),
   ("c", "text/x-c"),
   ("c++", "text/plain"),
   ("cat", "application/vnd.ms-pki.seccat"),
   ("cc", "text/plain"),
   ("cc", "text/x-c"),
   ("ccad", "application/clariscad"),
   ("cco", "application/x-cocoa"),
   ("cdf", "application/cdf"),
   ("cdf", "application/x-cdf"),
   ("cdf", "application/x-netcdf"),
   ("cer", "application/pkix-cert"),
   ("cer", "application/x-x509-ca-cert"),
   ("cha", "application/x-chat"),
   ("chat", "application/x-chat"),
   ("class", "application/java"),
   ("class", "application/java-byte-code"),
   ("class", "application/x-java-class"),
   ("com", "application/octet-stream"),
   ("com", "text/plain"),
   ("conf", "text/plain"),
   ("cpio", "application/x-cpio"),
   ("cpp", "text/x-c"),
   ("cpt", "application/mac-compactpro"),
   ("cpt", "application/x-compactpro"),
   ("cpt", "application/x-cpt"),
   ("crl", "application/pkcs-crl"),
   ("crl", "application/pkix-crl"),
   ("crt", "application/pkix-cert"),
   ("crt", "application/x-x509-ca-cert"),
   ("crt", "application/x-x509-user-cert"),
   ("csh", "application/x-csh"),
   ("csh", "text/x-script.csh"),
   ("css", "application/x-pointplus"),
   ("css", "text/css"),
   ("cxx", "text/plain"),
   ("dcr", "application/x-director"),
   ("deepv", "application/x-deepv"),
   ("def", "text/plain"),
   ("der", "application/x-x509-ca-cert"),
   ("dif", "video/x-dv"),
   ("dir", "application/x-director"),
   ("dl", "video/dl"),
   ("dl", "video/x-dl"),
   ("doc", "application/msword"),
   ("dot", "application/msword"),
   ("dp", "application/commonground"),
   ("drw", "application/drafting"),
   ("dump", "application/octet-stream"),
   ("dv", "video/x-dv"),
   ("dvi", "application/x-dvi"),
   ("dwf", "drawing/x-dwf"),
   ("dwf", "model/vnd.dwf"),
   ("dwg", "application/acad"),
   ("dwg", "image/vnd.dwg"),
   ("dwg", "image/x-dwg"),
   ("dxf", "application/dxf"),
   ("dxf", "image/vnd.dwg"),
   ("dxf", "image/x-dwg"),
   ("dxr", "application/x-director"),
   ("el", "text/x-script.elisp"),
   ("elc", "application/x-bytecode.elisp"),
   ("elc", "application/x-elc"),
   ("env", "application/x-envoy"),
   ("eps", "application/postscript"),
   ("es", "application/x-esrehber"),
   ("etx", "text/x-setext"),
   ("evy", "application/envoy"),
   ("evy", "application/x-envoy"),
   ("exe", "application/octet-stream"),
   ("f", "text/plain"),
   ("f", "text/x-fortran"),
   ("f77", "text/x-fortran"),
   ("f90", "text/plain"),
   ("f90", "text/x-fortran"),
   ("fdf", "application/vnd.fdf"),
   ("fif", "application/fractals"),
   ("fif", "image/fif"),
   ("fli", "video/fli"),
   ("fli", "video/x-fli"),
   ("flo", "image/florian"),
   ("flx", "text/vnd.fmi.flexstor"),
   ("fmf", "video/x-atomic3d-feature"),
   ("for", "text/plain"),
   ("for", "text/x-fortran"),
   ("fpx", "image/vnd.fpx"),
   ("fpx", "image/vnd.net-fpx"),
   ("frl", "application/freeloader"),
   ("funk", "audio/make"),
   ("g", "text/plain"),
   ("g3", "image/g3fax"),
   ("gif", "image/gif"),
   ("gl", "video/gl"),
   ("gl", "video/x-gl"),
   ("gsd", "audio/x-gsm"),
   ("gsm", "audio/x-gsm"),
   ("gsp", "application/x-gsp"),
   ("gss", "application/x-gss"),
   ("gtar", "application/x-gtar"),
   ("gz", "application/x-compressed"),
   ("gz", "application/x-gzip"),
   ("gzip", "application/x-gzip"),
   ("gzip", "multipart/x-gzip"),
   ("h", "text/plain"),
   ("h", "text/x-h"),
   ("hdf", "application/x-hdf"),
   ("help", "application/x-helpfile"),
   ("hgl", "application/vnd.hp-hpgl"),
   ("hh", "text/plain"),
   ("hh", "text/x-h"),
   ("hlb", "text/x-script"),
   ("hlp", "application/hlp"),
   ("hlp", "application/x-helpfile"),
   ("hlp", "application/x-winhelp"),
   ("hpg", "application/vnd.hp-hpgl"),
   ("hpgl", "application/vnd.hp-hpgl"),
   ("hqx", "application/binhex"),
   ("hqx", "application/binhex4"),
   ("hqx", "application/mac-binhex"),
   ("hqx", "application/mac-binhex40"),
   ("hqx", "application/x-binhex40"),
   ("hqx", "application/x-mac-binhex40"),
   ("hta", "application/hta"),
   ("htc", "text/x-component"),
   ("htm", "text/html"),
   ("html", "text/html"),
   ("htmls", "text/html"),
   ("htt", "text/webviewhtml"),
   ("htx", "text/html"),
   ("ice", "x-conference/x-cooltalk"),
   ("ico", "image/x-icon"),
   ("idc", "text/plain"),
   ("ief", "image/ief"),
   ("iefs", "image/ief"),
   ("iges", "application/iges"),
   ("iges", "model/iges"),
   ("igs", "application/iges"),
   ("igs", "model/iges"),
   ("ima", "application/x-ima"),
   ("imap", "application/x-httpd-imap"),
   ("inf", "application/inf"),
   ("ins", "application/x-internett-signup"),
   ("ip", "application/x-ip2"),
   ("isu", "video/x-isvideo"),
   ("it", "audio/it"),
   ("iv", "application/x-inventor"),
   ("ivr", "i-world/i-vrml"),
   ("ivy", "application/x-livescreen"),
   ("jam", "audio/x-jam"),
   ("jav", "text/plain"),
   ("jav", "text/x-java-source"),
   ("java", "text/plain"),
   ("java", "text/x-java-source"),
   ("jcm", "application/x-java-commerce"),
   ("jfif", "image/jpeg"),
   ("jfif", "image/pjpeg"),
   ("jpe", "image/jpeg"),
   ("jpe", "image/pjpeg"),
   ("jpeg", "image/jpeg"),
   ("jpeg", "image/pjpeg"),
   ("jpg", "image/jpeg"),
   ("jpg", "image/pjpeg"),
   ("jps", "image/x-jps"),
   ("js", "application/x-javascript"),
   ("jut", "image/jutvision"),
   ("kar", "audio/midi"),
   ("kar", "music/x-karaoke"),
   ("ksh", "application/x-ksh"),
   ("ksh", "text/x-script.ksh"),
   ("la", "audio/nspaudio"),
   ("la", "audio/x-nspaudio"),
   ("lam", "audio/x-liveaudio"),
   ("latex", "application/x-latex"),
   ("lha", "application/lha"),
   ("lha", "application/octet-stream"),
   ("lha", "application/x-lha"),
   ("lhx", "application/octet-stream"),
   ("list", "text/plain"),
   ("lma", "audio/nspaudio"),
   ("lma", "audio/x-nspaudio"),
   ("log", "text/plain"),
   ("lsp", "application/x-lisp"),
   ("lsp", "text/x-script.lisp"),
   ("lst", "text/plain"),
   ("lsx", "text/x-la-asf"),
   ("ltx", "application/x-latex"),
   ("lzh", "application/octet-stream"),
   ("lzh", "application/x-lzh"),
   ("lzx", "application/lzx"),
   ("lzx", "application/octet-stream"),
   ("lzx", "application/x-lzx"),
   ("m", "text/plain"),
   ("m", "text/x-m"),
   ("m1v", "video/mpeg"),
   ("m2a", "audio/mpeg"),
   ("m2v", "video/mpeg"),
   ("m3u", "audio/x-mpequrl"),
   ("man", "application/x-troff-man"),
   ("map", "application/x-navimap"),
   ("mar", "text/plain"),
   ("mbd", "application/mbedlet"),
   ("mc$", "application/x-magic-cap-package-1.0"),
   ("mcd", "application/mcad"),
   ("mcd", "application/x-mathcad"),
   ("mcf", "image/vasa"),
   ("mcf", "text/mcf"),
   ("mcp", "application/netmc"),
   ("me", "application/x-troff-me"),
   ("mht", "message/rfc822"),
   ("mhtml", "message/rfc822"),
   ("mid", "application/x-midi"),
   ("mid", "audio/midi"),
   ("mid", "audio/x-mid"),
   ("mid", "audio/x-midi"),
   ("mid", "music/crescendo"),
   ("mid", "x-music/x-midi"),
   ("midi", "application/x-midi"),
   ("midi", "audio/midi"),
   ("midi", "audio/x-mid"),
   ("midi", "audio/x-midi"),
   ("midi", "music/crescendo"),
   ("midi", "x-music/x-midi"),
   ("mif", "application/x-frame"),
   ("mif", "application/x-mif"),
   ("mime", "message/rfc822"),
   ("mime", "www/mime"),
   ("mjf", "audio/x-vnd.audioexplosion.mjuicemediafile"),
   ("mjpg", "video/x-motion-jpeg"),
   ("mm", "application/base64"),
   ("mm", "application/x-meme"),
   ("mme", "application/base64"),
   ("mod", "audio/mod"),
   ("mod", "audio/x-mod"),
   ("moov", "video/quicktime"),
   ("mov", "video/quicktime"),
   ("movie", "video/x-sgi-movie"),
   ("mp2", "audio/mpeg"),
   ("mp2", "audio/x-mpeg"),
   ("mp2", "video/mpeg"),
   ("mp2", "video/x-mpeg"),
   ("mp2", "video/x-mpeq2a"),
   ("mp3", "audio/mpeg"),
   ("mp3", "audio/mpeg3"),
   ("mp3", "audio/x-mpeg-3"),
   ("mp3", "video/mpeg"),
   ("mp3", "video/x-mpeg"),
   ("mpa", "audio/mpeg"),
   ("mpa", "video/mpeg"),
   ("mpc", "application/x-project"),
   ("mpe", "video/mpeg"),
   ("mpeg", "video/mpeg"),
   ("mpg", "audio/mpeg"),
   ("mpg", "video/mpeg"),
   ("mpga", "audio/mpeg"),
   ("mpp", "application/vnd.ms-project"),
   ("mpt", "application/x-project"),
   ("mpv", "application/x-project"),
   ("mpx", "application/x-project"),
   ("mrc", "application/marc"),
   ("ms", "application/x-troff-ms"),
   ("mv", "video/x-sgi-movie"),
   ("my", "audio/make"),
   ("mzz", "application/x-vnd.audioexplosion.mzz"),
   ("nap", "image/naplps"),
   ("naplps", "image/naplps"),
   ("nc", "application/x-netcdf"),
   ("ncm", "application/vnd.nokia.configuration-message"),
   ("nif", "image/x-niff"),
   ("niff", "image/x-niff"),
   ("nix", "application/x-mix-transfer"),
   ("nsc", "application/x-conference"),
   ("nvd", "application/x-navidoc"),
   ("o", "application/octet-stream"),
   ("oda", "application/oda"),
   ("omc", "application/x-omc"),
   ("omcd", "application/x-omcdatamaker"),
   ("omcr", "application/x-omcregerator"),
   ("p", "text/x-pascal"),
   ("p10", "application/pkcs10"),
   ("p10", "application/x-pkcs10"),
   ("p12", "application/pkcs-12"),
   ("p12", "application/x-pkcs12"),
   ("p7a", "application/x-pkcs7-signature"),
   ("p7c", "application/pkcs7-mime"),
   ("p7c", "application/x-pkcs7-mime"),
   ("p7m", "application/pkcs7-mime"),
   ("p7m", "application/x-pkcs7-mime"),
   ("p7r", "application/x-pkcs7-certreqresp"),
   ("p7s", "application/pkcs7-signature"),
   ("part", "application/pro_eng"),
   ("pas", "text/pascal"),
   ("pbm", "image/x-portable-bitmap"),
   ("pcl", "application/vnd.hp-pcl"),
   ("pcl", "application/x-pcl"),
   ("pct", "image/x-pict"),
   ("pcx", "image/x-pcx"),
   ("pdb", "chemical/x-pdb"),
   ("pdf", "application/pdf"),
   ("pfunk", "audio/make"),
   ("pfunk", "audio/make.my.funk"),
   ("pgm", "image/x-portable-graymap"),
   ("pgm", "image/x-portable-greymap"),
   ("pic", "image/pict"),
   ("pict", "image/pict"),
   ("pkg", "application/x-newton-compatible-pkg"),
   ("pko", "application/vnd.ms-pki.pko"),
   ("pl", "text/plain"),
   ("pl", "text/x-script.perl"),
   ("plx", "application/x-pixclscript"),
   ("pm", "image/x-xpixmap"),
   ("pm", "text/x-script.perl-module"),
   ("pm4", "application/x-pagemaker"),
   ("pm5", "application/x-pagemaker"),
   ("png", "image/png"),
   ("pnm", "application/x-portable-anymap"),
   ("pnm", "image/x-portable-anymap"),
   ("pot", "application/mspowerpoint"),
   ("pot", "application/vnd.ms-powerpoint"),
   ("pov", "model/x-pov"),
   ("ppa", "application/vnd.ms-powerpoint"),
   ("ppm", "image/x-portable-pixmap"),
   ("pps", "application/mspowerpoint"),
   ("pps", "application/vnd.ms-powerpoint"),
   ("ppt", "application/mspowerpoint"),
   ("ppt", "application/powerpoint"),
   ("ppt", "application/vnd.ms-powerpoint"),
   ("ppt", "application/x-mspowerpoint"),
   ("ppz", "application/mspowerpoint"),
   ("pre", "application/x-freelance"),
   ("prt", "application/pro_eng"),
   ("ps", "application/postscript"),
   ("psd", "application/octet-stream"),
   ("pvu", "paleovu/x-pv"),
   ("pwz", "application/vnd.ms-powerpoint"),
   ("py", "text/x-script.phyton"),
   ("pyc", "application/x-bytecode.python"),
   ("qcp", "audio/vnd.qcelp"),
   ("qd3", "x-world/x-3dmf"),
   ("qd3d", "x-world/x-3dmf"),
   ("qif", "image/x-quicktime"),
   ("qt", "video/quicktime"),
   ("qtc", "video/x-qtc"),
   ("qti", "image/x-quicktime"),
   ("qtif", "image/x-quicktime"),
   ("ra", "audio/x-pn-realaudio"),
   ("ra", "audio/x-pn-realaudio-plugin"),
   ("ra", "audio/x-realaudio"),
   ("ram", "audio/x-pn-realaudio"),
   ("ras", "application/x-cmu-raster"),
   ("ras", "image/cmu-raster"),
   ("ras", "image/x-cmu-raster"),
   ("rast", "image/cmu-raster"),
   ("rexx", "text/x-script.rexx"),
   ("rf", "image/vnd.rn-realflash"),
   ("rgb", "image/x-rgb"),
   ("rm", "application/vnd.rn-realmedia"),
   ("rm", "audio/x-pn-realaudio"),
   ("rmi", "audio/mid"),
   ("rmm", "audio/x-pn-realaudio"),
   ("rmp", "audio/x-pn-realaudio"),
   ("rmp", "audio/x-pn-realaudio-plugin"),
   ("rng", "application/ringing-tones"),
   ("rng", "application/vnd.nokia.ringing-tone"),
   ("rnx", "application/vnd.rn-realplayer"),
   ("roff", "application/x-troff"),
   ("rp", "image/vnd.rn-realpix"),
   ("rpm", "audio/x-pn-realaudio-plugin"),
   ("rt", "text/richtext"),
   ("rt", "text/vnd.rn-realtext"),
   ("rtf", "application/rtf"),
   ("rtf", "application/x-rtf"),
   ("rtf", "text/richtext"),
   ("rtx", "application/rtf"),
   ("rtx", "text/richtext"),
   ("rv", "video/vnd.rn-realvideo"),
   ("s", "text/x-asm"),
   ("s3m", "audio/s3m"),
   ("saveme", "application/octet-stream"),
   ("sbk", "application/x-tbook"),
   ("scm", "application/x-lotusscreencam"),
   ("scm", "text/x-script.guile"),
   ("scm", "text/x-script.scheme"),
   ("scm", "video/x-scm"),
   ("sdml", "text/plain"),
   ("sdp", "application/sdp"),
   ("sdp", "application/x-sdp"),
   ("sdr", "application/sounder"),
   ("sea", "application/sea"),
   ("sea", "application/x-sea"),
   ("set", "application/set"),
   ("sgm", "text/sgml"),
   ("sgm", "text/x-sgml"),
   ("sgml", "text/sgml"),
   ("sgml", "text/x-sgml"),
   ("sh", "application/x-bsh"),
   ("sh", "application/x-sh"),
   ("sh", "application/x-shar"),
   ("sh", "text/x-script.sh"),
   ("shar", "application/x-bsh"),
   ("shar", "application/x-shar"),
   ("shtml", "text/html"),
   ("shtml", "text/x-server-parsed-html"),
   ("sid", "audio/x-psid"),
   ("sit", "application/x-sit"),
   ("sit", "application/x-stuffit"),
   ("skd", "application/x-koan"),
   ("skm", "application/x-koan"),
   ("skp", "application/x-koan"),
   ("skt", "application/x-koan"),
   ("sl", "application/x-seelogo"),
   ("smi", "application/smil"),
   ("smil", "application/smil"),
   ("snd", "audio/basic"),
   ("snd", "audio/x-adpcm"),
   ("sol", "application/solids"),
   ("spc", "application/x-pkcs7-certificates"),
   ("spc", "text/x-speech"),
   ("spl", "application/futuresplash"),
   ("spr", "application/x-sprite"),
   ("sprite", "application/x-sprite"),
   ("src", "application/x-wais-source"),
   ("ssi", "text/x-server-parsed-html"),
   ("ssm", "application/streamingmedia"),
   ("sst", "application/vnd.ms-pki.certstore"),
   ("step", "application/step"),
   ("stl", "application/sla"),
   ("stl", "application/vnd.ms-pki.stl"),
   ("stl", "application/x-navistyle"),
   ("stp", "application/step"),
   ("sv4cpio,", "application/x-sv4cpio"),
   ("sv4crc", "application/x-sv4crc"),
   ("svf", "image/vnd.dwg"),
   ("svf", "image/x-dwg"),
   ("svr", "application/x-world"),
   ("svr", "x-world/x-svr"),
   ("swf", "application/x-shockwave-flash"),
   ("t", "application/x-troff"),
   ("talk", "text/x-speech"),
   ("tar", "application/x-tar"),
   ("tbk", "application/toolbook"),
   ("tbk", "application/x-tbook"),
   ("tcl", "application/x-tcl"),
   ("tcl", "text/x-script.tcl"),
   ("tcsh", "text/x-script.tcsh"),
   ("tex", "application/x-tex"),
   ("texi", "application/x-texinfo"),
   ("texinfo,", "application/x-texinfo"),
   ("text", "application/plain"),
   ("text", "text/plain"),
   ("tgz", "application/gnutar"),
   ("tgz", "application/x-compressed"),
   ("tif", "image/tiff"),
   ("tif", "image/x-tiff"),
   ("tiff", "image/tiff"),
   ("tiff", "image/x-tiff"),
   ("tr", "application/x-troff"),
   ("tsi", "audio/tsp-audio"),
   ("tsp", "application/dsptype"),
   ("tsp", "audio/tsplayer"),
   ("tsv", "text/tab-separated-values"),
   ("turbot", "image/florian"),
   ("txt", "text/plain"),
   ("uil", "text/x-uil"),
   ("uni", "text/uri-list"),
   ("unis", "text/uri-list"),
   ("unv", "application/i-deas"),
   ("uri", "text/uri-list"),
   ("uris", "text/uri-list"),
   ("ustar", "application/x-ustar"),
   ("ustar", "multipart/x-ustar"),
   ("uu", "application/octet-stream"),
   ("uu", "text/x-uuencode"),
   ("uue", "text/x-uuencode"),
   ("vcd", "application/x-cdlink"),
   ("vcs", "text/x-vcalendar"),
   ("vda", "application/vda"),
   ("vdo", "video/vdo"),
   ("vew", "application/groupwise"),
   ("viv", "video/vivo"),
   ("viv", "video/vnd.vivo"),
   ("vivo", "video/vivo"),
   ("vivo", "video/vnd.vivo"),
   ("vmd", "application/vocaltec-media-desc"),
   ("vmf", "application/vocaltec-media-file"),
   ("voc", "audio/voc"),
   ("voc", "audio/x-voc"),
   ("vos", "video/vosaic"),
   ("vox", "audio/voxware"),
   ("vqe", "audio/x-twinvq-plugin"),
   ("vqf", "audio/x-twinvq"),
   ("vql", "audio/x-twinvq-plugin"),
   ("vrml", "application/x-vrml"),
   ("vrml", "model/vrml"),
   ("vrml", "x-world/x-vrml"),
   ("vrt", "x-world/x-vrt"),
   ("vsd", "application/x-visio"),
   ("vst", "application/x-visio"),
   ("vsw", "application/x-visio"),
   ("w60", "application/wordperfect6.0"),
   ("w61", "application/wordperfect6.1"),
   ("w6w", "application/msword"),
   ("wav", "audio/wav"),
   ("wav", "audio/x-wav"),
   ("wb1", "application/x-qpro"),
   ("wbmp", "image/vnd.wap.wbmp"),
   ("web", "application/vnd.xara"),
   ("wiz", "application/msword"),
   ("wk1", "application/x-123"),
   ("wmf", "windows/metafile"),
   ("wml", "text/vnd.wap.wml"),
   ("wmlc", "application/vnd.wap.wmlc"),
   ("wmls", "text/vnd.wap.wmlscript"),
   ("wmlsc", "application/vnd.wap.wmlscriptc"),
   ("word", "application/msword"),
   ("wp", "application/wordperfect"),
   ("wp5", "application/wordperfect"),
   ("wp5", "application/wordperfect6.0"),
   ("wp6", "application/wordperfect"),
   ("wpd", "application/wordperfect"),
   ("wpd", "application/x-wpwin"),
   ("wq1", "application/x-lotus"),
   ("wri", "application/mswrite"),
   ("wri", "application/x-wri"),
   ("wrl", "application/x-world"),
   ("wrl", "model/vrml"),
   ("wrl", "x-world/x-vrml"),
   ("wrz", "model/vrml"),
   ("wrz", "x-world/x-vrml"),
   ("wsc", "text/scriplet"),
   ("wsrc", "application/x-wais-source"),
   ("wtk", "application/x-wintalk"),
   ("xbm", "image/x-xbitmap"),
   ("xbm", "image/x-xbm"),
   ("xbm", "image/xbm"),
   ("xdr", "video/x-amt-demorun"),
   ("xgz", "xgl/drawing"),
   ("xif", "image/vnd.xiff"),
   ("xl", "application/excel"),
   ("xla", "application/excel"),
   ("xla", "application/x-excel"),
   ("xla", "application/x-msexcel"),
   ("xlb", "application/excel"),
   ("xlb", "application/vnd.ms-excel"),
   ("xlb", "application/x-excel"),
   ("xlc", "application/excel"),
   ("xlc", "application/vnd.ms-excel"),
   ("xlc", "application/x-excel"),
   ("xld", "application/excel"),
   ("xld", "application/x-excel"),
   ("xlk", "application/excel"),
   ("xlk", "application/x-excel"),
   ("xll", "application/excel"),
   ("xll", "application/vnd.ms-excel"),
   ("xll", "application/x-excel"),
   ("xlm", "application/excel"),
   ("xlm", "application/vnd.ms-excel"),
   ("xlm", "application/x-excel"),
   ("xls", "application/excel"),
   ("xls", "application/vnd.ms-excel"),
   ("xls", "application/x-excel"),
   ("xls", "application/x-msexcel"),
   ("xlt", "application/excel"),
   ("xlt", "application/x-excel"),
   ("xlv", "application/excel"),
   ("xlv", "application/x-excel"),
   ("xlw", "application/excel"),
   ("xlw", "application/vnd.ms-excel"),
   ("xlw", "application/x-excel"),
   ("xlw", "application/x-msexcel"),
   ("xm", "audio/xm"),
   ("xml", "application/xml"),
   ("xml", "text/xml"),
   ("xmz", "xgl/movie"),
   ("xpix", "application/x-vnd.ls-xpix"),
   ("xpm", "image/x-xpixmap"),
   ("xpm", "image/xpm"),
   ("x-png", "image/png"),
   ("xsr", "video/x-amt-showrun"),
   ("xwd", "image/x-xwd"),
   ("xwd", "image/x-xwindowdump"),
   ("xyz", "chemical/x-pdb"),
   ("z", "application/x-compress"),
   ("z", "application/x-compressed"),
   ("zip", "application/x-compressed"),
   ("zip", "application/x-zip-compressed"),
   ("zip", "application/zip"),
   ("zip", "multipart/x-zip"),
   ("zoo", "application/octet-stream")]

/-- `getMimeTypesForFileExtension` (juce_common_MimeTypes.cpp:29): walks the
table in order and appends the `mimeType` of every row whose `fileExtension`
compares equal to the query (`String::operator==`, exact and case-sensitive);
`StringArray::add` appends at the back. -/
def getMimeTypesForFileExtension (fileExtension : String) : List String :=
  mimeTable.foldl
    (fun result type =>
      if fileExtension == type.1 then result ++ [type.2] else result) []

/-! ### Chain toolkit -/

theorem headD_reverse (l : List Nat) (d : Nat) : l.reverse.headD d = l.getLastD d := by
  simp [List.headD_eq_head?_getD, List.getLastD_eq_getLast?]

theorem getLastD_reverse (l : List Nat) (d : Nat) : l.reverse.getLastD d = l.headD d := by
  simp [List.headD_eq_head?_getD, List.getLastD_eq_getLast?]

theorem rlinks_append_cons (f : Nat → Nat) (y b : Nat) :
    ∀ (xs : List Nat) (a : Nat) (ys : List Nat),
      rlinks f a (xs ++ y :: ys) b ↔ rlinks f a xs y ∧ rlinks f y ys b := by
  intro xs
  induction xs with
  | nil => intro a ys; simp [rlinks]
  | cons x xs ih =>
    intro a ys
    simp only [List.cons_append, rlinks, List.append_eq, ih x ys, and_assoc]

theorem rlinks_update_not_mem (f : Nat → Nat) (c v : Nat) (l : List Nat) :
    ∀ (a b : Nat), c ∉ a :: l →
      (rlinks (Function.update f c v) a l b ↔ rlinks f a l b) := by
  induction l with
  | nil =>
    intro a b hc
    rw [List.mem_singleton] at hc
    exact iff_of_eq (congrArg (· = b) (Function.update_noteq (fun h => hc h.symm) v f))
  | cons x l ih =>
    intro a b hc
    rw [List.mem_cons] at hc
    push_neg at hc
    simp only [rlinks, Function.update_noteq (fun h => hc.1 h.symm) v f, ih x b hc.2]

theorem rlinks_update_getLastD (f : Nat → Nat) (c : Nat) (l : List Nat) :
    ∀ (a b : Nat), rlinks f a l b → (a :: l).Nodup →
      rlinks (Function.update f (l.getLastD a) c) a l c := by
  induction l with
  | nil =>
    intro a b _ _
    show Function.update f a c a = c
    exact Function.update_same a c f
  | cons x l ih =>
    intro a b h hnd
    rw [List.getLastD_cons]
    have hax : a ∉ x :: l := (List.nodup_cons.mp hnd).1
    have ha : a ≠ l.getLastD x := fun he => hax (he ▸ List.getLastD_mem_cons l x)
    exact ⟨by rw [Function.update_noteq ha, h.1],
      ih x b h.2 (List.nodup_cons.mp hnd).2⟩

theorem rlinks_head (f : Nat → Nat) {a b : Nat} {l : List Nat} (h : rlinks f a l b) :
    f a = l.headD b := by
  cases l with
  | nil => exact h
  | cons x l => exact h.1

theorem rlinks_last (f : Nat → Nat) (l : List Nat) :
    ∀ (a b : Nat), rlinks f a l b → f (l.getLastD a) = b := by
  induction l with
  | nil => intro a b h; simpa using h
  | cons x l ih => intro a b h; rw [List.getLastD_cons]; exact ih x b h.2

@[simp] theorem initListHead_nxt (h : Heap T) (s : Nat) :
    (initListHead h s).nxt = Function.update h.nxt s s := rfl

@[simp] theorem initListHead_prv (h : Heap T) (s : Nat) :
    (initListHead h s).prv = Function.update h.prv s s := rfl

@[simp] theorem initListHead_val (h : Heap T) (s : Nat) :
    (initListHead h s).val = h.val := rfl

@[simp] theorem initListHead_fresh (h : Heap T) (s : Nat) :
    (initListHead h s).fresh = h.fresh := rfl

@[simp] theorem initListHead_allocd (h : Heap T) (s : Nat) :
    (initListHead h s).allocd = h.allocd := rfl

@[simp] theorem klistAddBetween_nxt (h : Heap T) (nw p q : Nat) :
    (klistAddBetween h nw p q).nxt =
      Function.update (Function.update h.nxt nw q) p nw := rfl

@[simp] theorem klistAddBetween_prv (h : Heap T) (nw p q : Nat) :
    (klistAddBetween h nw p q).prv =
      Function.update (Function.update h.prv q nw) nw p := rfl

@[simp] theorem klistAddBetween_val (h : Heap T) (nw p q : Nat) :
    (klistAddBetween h nw p q).val = h.val := rfl

@[simp] theorem klistAddBetween_fresh (h : Heap T) (nw p q : Nat) :
    (klistAddBetween h nw p q).fresh = h.fresh := rfl

@[simp] theorem klistAddBetween_allocd (h : Heap T) (nw p q : Nat) :
    (klistAddBetween h nw p q).allocd = h.allocd := rfl

@[simp] theorem listDel_nxt (h : Heap T) (u : Nat) :
    (listDel h u).nxt = Function.update h.nxt (h.prv u) (h.nxt u) := rfl

@[simp] theorem listDel_prv (h : Heap T) (u : Nat) :
    (listDel h u).prv = Function.update h.prv (h.nxt u) (h.prv u) := rfl

@[simp] theorem listDel_val (h : Heap T) (u : Nat) : (listDel h u).val = h.val := rfl

@[simp] theorem listDel_fresh (h : Heap T) (u : Nat) : (listDel h u).fresh = h.fresh := rfl

@[simp] theorem listDel_allocd (h : Heap T) (u : Nat) :
    (listDel h u).allocd = h.allocd := rfl

@[simp] theorem klistSplice_nxt (h : Heap T) (list p q : Nat) :
    (klistSplice h list p q).nxt =
      Function.update (Function.update h.nxt p (h.nxt list)) (h.prv list) q := rfl

@[simp] theorem klistSplice_prv (h : Heap T) (list p q : Nat) :
    (klistSplice h list p q).prv =
      Function.update (Function.update h.prv (h.nxt list) p) q (h.prv list) := rfl

@[simp] theorem klistSplice_val (h : Heap T) (list p q : Nat) :
    (klistSplice h list p q).val = h.val := rfl

@[simp] theorem klistSplice_fresh (h : Heap T) (list p q : Nat) :
    (klistSplice h list p q).fresh = h.fresh := rfl

@[simp] theorem klistSplice_allocd (h : Heap T) (list p q : Nat) :
    (klistSplice h list p q).allocd = h.allocd := rfl

@[simp] theorem deallocate_nxt (h : Heap T) (d : Nat) : (deallocate h d).nxt = h.nxt := rfl

@[simp] theorem deallocate_prv (h : Heap T) (d : Nat) : (deallocate h d).prv = h.prv := rfl

@[simp] theorem deallocate_val (h : Heap T) (d : Nat) : (deallocate h d).val = h.val := rfl

@[simp] theorem deallocate_fresh (h : Heap T) (d : Nat) :
    (deallocate h d).fresh = h.fresh := rfl

@[simp] theorem deallocate_allocd (h : Heap T) (d : Nat) :
    (deallocate h d).allocd = h.allocd.erase d := rfl

@[simp] theorem setVal_nxt (h : Heap T) (a : Nat) (v : T) : (h.setVal a v).nxt = h.nxt := rfl

@[simp] theorem setVal_prv (h : Heap T) (a : Nat) (v : T) : (h.setVal a v).prv = h.prv := rfl

@[simp] theorem setVal_val (h : Heap T) (a : Nat) (v : T) :
    (h.setVal a v).val = Function.update h.val a v := rfl

@[simp] theorem setVal_fresh (h : Heap T) (a : Nat) (v : T) :
    (h.setVal a v).fresh = h.fresh := rfl

@[simp] theorem setVal_allocd (h : Heap T) (a : Nat) (v : T) :
    (h.setVal a v).allocd = h.allocd := rfl

theorem rlinks_mem (f : Nat → Nat) (l : List Nat) :
    ∀ (a b u : Nat), rlinks f a l b → u ∈ a :: l → f u ∈ l ++ [b] := by
  induction l with
  | nil =>
    intro a b u h hu
    rw [List.mem_singleton] at hu
    subst hu
    simp only [List.nil_append, List.mem_singleton]
    exact h
  | cons x l ih =>
    intro a b u h hu
    rcases List.mem_cons.mp hu with rfl | hu2
    · simp [h.1]
    · have := ih x b u h.2 hu2
      simp only [List.cons_append, List.mem_cons]
      simp only [List.mem_append, List.mem_singleton] at this ⊢
      tauto

theorem rlinks_append_left (f : Nat → Nat) {a b : Nat} (l1 l2 : List Nat)
    (h : rlinks f a (l1 ++ l2) b) : rlinks f a l1 (l2.headD b) := by
  cases l2 with
  | nil => rw [List.append_nil] at h; exact h
  | cons y l2 => exact ((rlinks_append_cons f y b l1 a l2).mp h).1

theorem rlinks_append_right (f : Nat → Nat) {a b : Nat} (l1 l2 : List Nat)
    (h : rlinks f a (l1 ++ l2) b) : rlinks f (l1.getLastD a) l2 b := by
  cases l2 with
  | nil =>
    rw [List.append_nil] at h
    exact rlinks_last f l1 a b h
  | cons y l2 =>
    obtain ⟨h1, h2⟩ := (rlinks_append_cons f y b l1 a l2).mp h
    exact ⟨rlinks_last f l1 a y h1, h2⟩

theorem rlinks_congr (f g : Nat → Nat) (l : List Nat) :
    ∀ (a b : Nat), (∀ x ∈ a :: l, g x = f x) → rlinks f a l b → rlinks g a l b := by
  induction l with
  | nil =>
    intro a b hag h
    show g a = b
    rw [hag a (List.mem_singleton_self a)]
    exact h
  | cons x l ih =>
    intro a b hag h
    refine ⟨?_, ih x b (fun z hz => hag z (List.mem_cons_of_mem a hz)) h.2⟩
    rw [hag a (List.mem_cons_self a (x :: l))]
    exact h.1

theorem rlinks_head_switch (f g : Nat → Nat) (c : Nat) {a b : Nat} (l : List Nat)
    (h : rlinks f a l b) (hc : g c = l.headD b) (hagree : ∀ x ∈ l, g x = f x) :
    rlinks g c l b := by
  cases l with
  | nil => exact hc
  | cons y l' => exact ⟨hc, rlinks_congr f g l' y b hagree h.2⟩

theorem rlinks_glue (f : Nat → Nat) {a c b e : Nat} (l1 l2 : List Nat)
    (h1 : rlinks f a l1 c) (h2 : rlinks f e l2 b)
    (hnd : (a :: l1).Nodup) (hL : l1.getLastD a ∉ l2) :
    rlinks (Function.update f (l1.getLastD a) (l2.headD b)) a (l1 ++ l2) b := by
  cases l2 with
  | nil =>
    rw [List.append_nil]
    exact rlinks_update_getLastD f b l1 a c h1 hnd
  | cons y l2' =>
    rw [rlinks_append_cons]
    refine ⟨rlinks_update_getLastD f y l1 a c h1 hnd, ?_⟩
    exact (rlinks_update_not_mem f (l1.getLastD a) y l2' y b hL).mpr h2.2

/-! ### Ring surgery -/

theorem ring_insert (h : Heap T) (s : Nat) (xs ys : List Nat) (d : Nat)
    (hf : rlinks h.nxt s (xs ++ ys) s)
    (hb : rlinks h.prv s (xs ++ ys).reverse s)
    (hnd : (s :: (xs ++ ys)).Nodup)
    (hd : d ∉ s :: (xs ++ ys)) :
    rlinks (klistAddBetween h d (xs.getLastD s) (ys.headD s)).nxt s (xs ++ d :: ys) s ∧
    rlinks (klistAddBetween h d (xs.getLastD s) (ys.headD s)).prv s
      (xs ++ d :: ys).reverse s := by
  have hnd1 := List.nodup_cons.mp hnd
  have hs_app := hnd1.1
  rw [List.mem_append] at hs_app
  push_neg at hs_app
  obtain ⟨hs_xs, hs_ys⟩ := hs_app
  obtain ⟨hnd_xs, hnd_ys, hdisj⟩ := List.nodup_append.mp hnd1.2
  rw [List.mem_cons, List.mem_append] at hd
  push_neg at hd
  obtain ⟨hd_s, hd_xs, hd_ys⟩ := hd
  have hp_mem : xs.getLastD s ∈ s :: xs := List.getLastD_mem_cons xs s
  have hq_mem : ys.headD s ∈ s :: ys := by cases ys <;> simp
  have hd_sxs : d ∉ s :: xs := by
    rw [List.mem_cons]
    push_neg
    exact ⟨hd_s, hd_xs⟩
  have hd_ne_p : d ≠ xs.getLastD s := fun he => hd_sxs (he ▸ hp_mem)
  have hp_not_ys : xs.getLastD s ∉ ys := by
    rcases List.mem_cons.mp hp_mem with he | he
    · rw [he]; exact hs_ys
    · exact hdisj he
  have hq_not_xs : ys.headD s ∉ xs := by
    rcases List.mem_cons.mp hq_mem with he | he
    · rw [he]; exact hs_xs
    · exact fun hx => hdisj hx he
  have hnd_sxs : (s :: xs).Nodup := List.nodup_cons.mpr ⟨hs_xs, hnd_xs⟩
  have hnd_sysrev : (s :: ys.reverse).Nodup :=
    List.nodup_cons.mpr ⟨fun hm => hs_ys (List.mem_reverse.mp hm),
      List.nodup_reverse.mpr hnd_ys⟩
  have Hxs : rlinks h.nxt s xs (ys.headD s) := rlinks_append_left h.nxt xs ys hf
  have HysR : rlinks h.nxt (xs.getLastD s) ys s := rlinks_append_right h.nxt xs ys hf
  rw [(by simp : (xs ++ ys).reverse = ys.reverse ++ xs.reverse)] at hb
  have Hys' : rlinks h.prv s ys.reverse (xs.getLastD s) := by
    have := rlinks_append_left h.prv ys.reverse xs.reverse hb
    rwa [headD_reverse] at this
  have HxsR' : rlinks h.prv (ys.headD s) xs.reverse s := by
    have := rlinks_append_right h.prv ys.reverse xs.reverse hb
    rwa [getLastD_reverse] at this
  constructor
  · rw [klistAddBetween_nxt, rlinks_append_cons]
    constructor
    · exact rlinks_update_getLastD (Function.update h.nxt d (ys.headD s)) d xs s
        (ys.headD s)
        ((rlinks_update_not_mem h.nxt d (ys.headD s) xs s (ys.headD s) hd_sxs).mpr Hxs)
        hnd_sxs
    · refine rlinks_head_switch h.nxt _ d ys HysR ?_ ?_
      · rw [Function.update_noteq hd_ne_p, Function.update_same]
      · intro x hx
        have hx_ne_p : x ≠ xs.getLastD s := by
          intro hc
          rcases List.mem_cons.mp hp_mem with he | he
          · rw [hc, he] at hx
            exact hs_ys hx
          · rw [← hc] at he
            exact hdisj he hx
        have hx_ne_d : x ≠ d := fun hc => hd_ys (hc ▸ hx)
        rw [Function.update_noteq hx_ne_p, Function.update_noteq hx_ne_d]
  · rw [klistAddBetween_prv,
      (by simp : (xs ++ d :: ys).reverse = ys.reverse ++ d :: xs.reverse),
      rlinks_append_cons]
    constructor
    · have hd_sysrev : d ∉ s :: ys.reverse := by
        rw [List.mem_cons, List.mem_reverse]
        push_neg
        exact ⟨hd_s, hd_ys⟩
      have hW1 := rlinks_update_getLastD h.prv d ys.reverse s (xs.getLastD s) Hys'
        hnd_sysrev
      rw [getLastD_reverse] at hW1
      exact (rlinks_update_not_mem (Function.update h.prv (ys.headD s) d) d
        (xs.getLastD s) ys.reverse s d hd_sysrev).mpr hW1
    · refine rlinks_head_switch h.prv _ d xs.reverse HxsR' ?_ ?_
      · rw [Function.update_same, headD_reverse]
      · intro x hx
        have hx_xs : x ∈ xs := List.mem_reverse.mp hx
        have hx_ne_d : x ≠ d := fun hc => hd_xs (hc ▸ hx_xs)
        have hx_ne_q : x ≠ ys.headD s := fun hc => hq_not_xs (hc ▸ hx_xs)
        rw [Function.update_noteq hx_ne_d, Function.update_noteq hx_ne_q]

theorem ring_delete (h : Heap T) (s : Nat) (xs ys : List Nat) (u : Nat)
    (hf : rlinks h.nxt s (xs ++ u :: ys) s)
    (hb : rlinks h.prv s (xs ++ u :: ys).reverse s)
    (hnd : (s :: (xs ++ u :: ys)).Nodup) :
    rlinks (listDel h u).nxt s (xs ++ ys) s ∧
    rlinks (listDel h u).prv s (xs ++ ys).reverse s := by
  have hnd1 := List.nodup_cons.mp hnd
  have hs_app := hnd1.1
  rw [List.mem_append, List.mem_cons] at hs_app
  push_neg at hs_app
  obtain ⟨hs_xs, _, hs_ys⟩ := hs_app
  obtain ⟨hnd_xs, hnd_uys, hdisj_xs_uys⟩ := List.nodup_append.mp hnd1.2
  obtain ⟨hu_ys, hnd_ys⟩ := List.nodup_cons.mp hnd_uys
  have hdisj : ∀ x ∈ xs, x ∉ ys := fun x hx hy =>
    hdisj_xs_uys hx (List.mem_cons_of_mem u hy)
  have hp_mem : xs.getLastD s ∈ s :: xs := List.getLastD_mem_cons xs s
  have hq_mem : ys.headD s ∈ s :: ys := by cases ys <;> simp
  have hnd_sxs : (s :: xs).Nodup := List.nodup_cons.mpr ⟨hs_xs, hnd_xs⟩
  have hnd_sysrev : (s :: ys.reverse).Nodup :=
    List.nodup_cons.mpr ⟨fun hm => hs_ys (List.mem_reverse.mp hm),
      List.nodup_reverse.mpr hnd_ys⟩
  have hp_not_ys : xs.getLastD s ∉ ys := by
    rcases List.mem_cons.mp hp_mem with he | he
    · rw [he]; exact hs_ys
    · exact hdisj _ he
  have hq_not_xsrev : ys.headD s ∉ xs.reverse := by
    rw [List.mem_reverse]
    rcases List.mem_cons.mp hq_mem with he | he
    · rw [he]; exact hs_xs
    · exact fun hx => hdisj _ hx he
  obtain ⟨Hxs, Huy⟩ := (rlinks_append_cons h.nxt u s xs s ys).mp hf
  rw [(by simp : (xs ++ u :: ys).reverse = ys.reverse ++ u :: xs.reverse)] at hb
  obtain ⟨Hys', Hux'⟩ := (rlinks_append_cons h.prv u s ys.reverse s xs.reverse).mp hb
  have hn0 : h.nxt u = ys.headD s := rlinks_head h.nxt Huy
  have hp0 : h.prv u = xs.getLastD s := by
    have := rlinks_head h.prv Hux'
    rwa [headD_reverse] at this
  constructor
  · rw [listDel_nxt, hn0, hp0]
    exact rlinks_glue h.nxt xs ys Hxs Huy hnd_sxs hp_not_ys
  · rw [listDel_prv, hn0, hp0,
      (by simp : (xs ++ ys).reverse = ys.reverse ++ xs.reverse)]
    have hL : ys.reverse.getLastD s ∉ xs.reverse := by
      rw [getLastD_reverse]
      exact hq_not_xsrev
    have hg := rlinks_glue h.prv ys.reverse xs.reverse Hys' Hux' hnd_sysrev hL
    rwa [getLastD_reverse, headD_reverse] at hg

theorem ring_splice (h : Heap T) (sA : Nat) (nsA : List Nat) (sB : Nat) (xs ys : List Nat)
    (hfA : rlinks h.nxt sA nsA sA) (hbA : rlinks h.prv sA nsA.reverse sA)
    (hfB : rlinks h.nxt sB (xs ++ ys) sB) (hbB : rlinks h.prv sB (xs ++ ys).reverse sB)
    (hndA : (sA :: nsA).Nodup) (hndB : (sB :: (xs ++ ys)).Nodup)
    (hdisj : ∀ x ∈ sA :: nsA, x ∉ sB :: (xs ++ ys))
    (hne : nsA ≠ []) :
    rlinks (klistSplice h sA (xs.getLastD sB) (ys.headD sB)).nxt sB
      (xs ++ (nsA ++ ys)) sB ∧
    rlinks (klistSplice h sA (xs.getLastD sB) (ys.headD sB)).prv sB
      (xs ++ (nsA ++ ys)).reverse sB := by
  obtain ⟨a0, tlA, hA⟩ := List.exists_cons_of_ne_nil hne
  subst hA
  obtain hcon | ⟨zs, w, hzw⟩ := List.eq_nil_or_concat (a0 :: tlA)
  · exact absurd hcon hne
  rw [List.concat_eq_append] at hzw
  have hndB1 := List.nodup_cons.mp hndB
  have hsB_app := hndB1.1
  rw [List.mem_append] at hsB_app
  push_neg at hsB_app
  obtain ⟨hsB_xs, hsB_ys⟩ := hsB_app
  obtain ⟨hnd_xs, hnd_ys, hdisj_xy⟩ := List.nodup_append.mp hndB1.2
  have hndA2 : (a0 :: tlA).Nodup := (List.nodup_cons.mp hndA).2
  have hA_not_B : ∀ x ∈ a0 :: tlA, x ∉ sB :: (xs ++ ys) := fun x hx =>
    hdisj x (List.mem_cons_of_mem sA hx)
  have hw_mem : w ∈ a0 :: tlA := by
    rw [hzw]
    exact List.mem_append_right _ (List.mem_singleton_self w)
  have hzs_sub : ∀ x ∈ zs, x ∈ a0 :: tlA := by
    intro x hx
    rw [hzw]
    exact List.mem_append_left _ hx
  have hfirst : h.nxt sA = a0 := hfA.1
  have hrevA : (a0 :: tlA).reverse = w :: zs.reverse := by rw [hzw]; simp
  rw [hrevA] at hbA
  have hlast : h.prv sA = w := hbA.1
  have hw' : tlA.getLastD a0 = w := by
    have h1 : (a0 :: tlA).getLastD sA = w := by
      rw [hzw]
      exact List.getLastD_concat _ _ _
    rwa [List.getLastD_cons] at h1
  have ha0' : zs.headD w = a0 := by
    have h2 : (zs ++ [w]).headD sA = zs.headD w := by cases zs <;> simp
    rw [← hzw] at h2
    exact h2.symm.trans rfl
  have hp_memB : xs.getLastD sB ∈ sB :: (xs ++ ys) := by
    rcases List.mem_cons.mp (List.getLastD_mem_cons xs sB) with he | he
    · rw [he]; exact List.mem_cons_self _ _
    · exact List.mem_cons_of_mem _ (List.mem_append_left _ he)
  have hq_mem : ys.headD sB ∈ sB :: ys := by cases ys <;> simp
  have hq_memB : ys.headD sB ∈ sB :: (xs ++ ys) := by
    rcases List.mem_cons.mp hq_mem with he | he
    · rw [he]; exact List.mem_cons_self _ _
    · exact List.mem_cons_of_mem _ (List.mem_append_right _ he)
  have hp_not_A : ∀ x ∈ a0 :: tlA, xs.getLastD sB ≠ x := fun x hx he =>
    hA_not_B x hx (he ▸ hp_memB)
  have hq_not_A : ∀ x ∈ a0 :: tlA, ys.headD sB ≠ x := fun x hx he =>
    hA_not_B x hx (he ▸ hq_memB)
  have hp_ne_w : xs.getLastD sB ≠ w := hp_not_A w hw_mem
  have hp_not_ys : xs.getLastD sB ∉ ys := by
    rcases List.mem_cons.mp (List.getLastD_mem_cons xs sB) with he | he
    · rw [he]; exact hsB_ys
    · exact fun hy => hdisj_xy he hy
  have hq_not_xs : ys.headD sB ∉ xs := by
    rcases List.mem_cons.mp hq_mem with he | he
    · rw [he]; exact hsB_xs
    · exact fun hx => hdisj_xy hx he
  have hw_not_sBxs : w ∉ sB :: xs := by
    intro hx
    apply hA_not_B w hw_mem
    rcases List.mem_cons.mp hx with he | he
    · rw [he]; exact List.mem_cons_self _ _
    · exact List.mem_cons_of_mem _ (List.mem_append_left _ he)
  have ha0_mem : a0 ∈ a0 :: tlA := List.mem_cons_self _ _
  have ha0_not_sBysrev : a0 ∉ sB :: ys.reverse := by
    intro hx
    apply hA_not_B a0 ha0_mem
    rcases List.mem_cons.mp hx with he | he
    · rw [he]; exact List.mem_cons_self _ _
    · exact List.mem_cons_of_mem _ (List.mem_append_right _ (List.mem_reverse.mp he))
  have hp_not_D1 : xs.getLastD sB ∉ a0 :: (tlA ++ ys) := by
    intro hx
    rcases List.mem_cons.mp hx with he | he
    · exact hp_not_A a0 ha0_mem he
    · rcases List.mem_append.mp he with h1 | h1
      · exact hp_not_A _ (List.mem_cons_of_mem a0 h1) rfl
      · exact hp_not_ys h1
  have hq_not_D : ys.headD sB ∉ w :: (zs.reverse ++ xs.reverse) := by
    intro hx
    rcases List.mem_cons.mp hx with he | he
    · exact hq_not_A w hw_mem he
    · rcases List.mem_append.mp he with h1 | h1
      · exact hq_not_A _ (hzs_sub _ (List.mem_reverse.mp h1)) rfl
      · exact hq_not_xs (List.mem_reverse.mp h1)
  have ha0_not_xsrev : zs.reverse.getLastD w ∉ xs.reverse := by
    rw [getLastD_reverse, ha0', List.mem_reverse]
    intro hx
    exact hA_not_B a0 ha0_mem
      (List.mem_cons_of_mem _ (List.mem_append_left _ hx))
  have hLfwd : tlA.getLastD a0 ∉ ys := by
    rw [hw']
    intro hy
    exact hA_not_B w hw_mem (List.mem_cons_of_mem _ (List.mem_append_right _ hy))
  have hnd_sBxs : (sB :: xs).Nodup := List.nodup_cons.mpr ⟨hsB_xs, hnd_xs⟩
  have hnd_sBysrev : (sB :: ys.reverse).Nodup :=
    List.nodup_cons.mpr ⟨fun hm => hsB_ys (List.mem_reverse.mp hm),
      List.nodup_reverse.mpr hnd_ys⟩
  have hnd_wzsrev : (w :: zs.reverse).Nodup := by
    have := List.nodup_reverse.mpr hndA2
    rwa [hrevA] at this
  have HxsB : rlinks h.nxt sB xs (ys.headD sB) := rlinks_append_left h.nxt xs ys hfB
  have HysB : rlinks h.nxt (xs.getLastD sB) ys sB := rlinks_append_right h.nxt xs ys hfB
  rw [(by simp : (xs ++ ys).reverse = ys.reverse ++ xs.reverse)] at hbB
  have HysB' : rlinks h.prv sB ys.reverse (xs.getLastD sB) := by
    have := rlinks_append_left h.prv ys.reverse xs.reverse hbB
    rwa [headD_reverse] at this
  have HxsB' : rlinks h.prv (ys.headD sB) xs.reverse sB := by
    have := rlinks_append_right h.prv ys.reverse xs.reverse hbB
    rwa [getLastD_reverse] at this
  constructor
  · rw [klistSplice_nxt, hfirst, hlast,
      (by simp : xs ++ ((a0 :: tlA) ++ ys) = xs ++ a0 :: (tlA ++ ys)),
      rlinks_append_cons]
    constructor
    · exact (rlinks_update_not_mem (Function.update h.nxt (xs.getLastD sB) a0) w
        (ys.headD sB) xs sB a0 hw_not_sBxs).mpr
        (rlinks_update_getLastD h.nxt a0 xs sB (ys.headD sB) HxsB hnd_sBxs)
    · rw [Function.update_comm hp_ne_w]
      refine (rlinks_update_not_mem (Function.update h.nxt w (ys.headD sB))
        (xs.getLastD sB) a0 (tlA ++ ys) a0 sB hp_not_D1).mpr ?_
      have hg := rlinks_glue h.nxt tlA ys hfA.2 HysB hndA2 hLfwd
      rwa [hw'] at hg
  · rw [klistSplice_prv, hfirst, hlast,
      (show (xs ++ ((a0 :: tlA) ++ ys)).reverse
          = ys.reverse ++ w :: (zs.reverse ++ xs.reverse) by
        rw [hzw]; simp),
      rlinks_append_cons]
    constructor
    · have base := (rlinks_update_not_mem h.prv a0 (xs.getLastD sB) ys.reverse sB
        (xs.getLastD sB) ha0_not_sBysrev).mpr HysB'
      have hW1 := rlinks_update_getLastD (Function.update h.prv a0 (xs.getLastD sB)) w
        ys.reverse sB (xs.getLastD sB) base hnd_sBysrev
      rwa [getLastD_reverse] at hW1
    · have hg := rlinks_glue h.prv zs.reverse xs.reverse hbA.2 HxsB' hnd_wzsrev
        ha0_not_xsrev
      rw [getLastD_reverse, ha0', headD_reverse] at hg
      exact (rlinks_update_not_mem (Function.update h.prv a0 (xs.getLastD sB))
        (ys.headD sB) w (zs.reverse ++ xs.reverse) w sB hq_not_D).mpr hg

/-! ### Invariant preservation -/

theorem ring_closed {f : Nat → Nat} {s : Nat} {ns : List Nat} {u : Nat}
    (hf : rlinks f s ns s) (hu : u ∈ s :: ns) : f u ∈ s :: ns := by
  have := rlinks_mem f ns s s u hf hu
  rw [List.mem_append, List.mem_singleton] at this
  rw [List.mem_cons]
  tauto

theorem split_at_getLastD {s u : Nat} {ns : List Nat} (hu : u ∈ s :: ns) :
    ∃ xs ys, ns = xs ++ ys ∧ xs.getLastD s = u := by
  rcases List.mem_cons.mp hu with he | he
  · exact ⟨[], ns, rfl, he.symm⟩
  · obtain ⟨l1, l2, rfl⟩ := List.append_of_mem he
    exact ⟨l1 ++ [u], l2, by simp, List.getLastD_concat _ _ _⟩

theorem split_at_headD {s u : Nat} {ns : List Nat} (hu : u ∈ s :: ns) :
    ∃ xs ys, ns = xs ++ ys ∧ ys.headD s = u := by
  rcases List.mem_cons.mp hu with he | he
  · exact ⟨ns, [], (List.append_nil ns).symm, he.symm⟩
  · obtain ⟨l1, l2, rfl⟩ := List.append_of_mem he
    exact ⟨l1, u :: l2, rfl, rfl⟩

theorem nodup_bound_length {ns : List Nat} {k : Nat} (hnd : ns.Nodup)
    (hb : ∀ n ∈ ns, n < k) : ns.length ≤ k := by
  have h1 : ns.toFinset ⊆ Finset.range k := fun x hx =>
    Finset.mem_range.mpr (hb x (List.mem_toFinset.mp hx))
  have h2 := Finset.card_le_card h1
  rwa [List.toFinset_card_of_nodup hnd, Finset.card_range] at h2

theorem ringinv_transport {h h' : Heap T} {s cnt : Nat} {ns : List Nat}
    (hinv : RingInv h s cnt ns) (hn : h'.nxt = h.nxt) (hp : h'.prv = h.prv)
    (hfr : h.fresh ≤ h'.fresh) : RingInv h' s cnt ns := by
  refine ⟨?_, ?_, hinv.nodup, ?_, hinv.cntEq⟩
  · rw [hn]; exact hinv.fwd
  · rw [hp]; exact hinv.bwd
  · exact fun n hn' => lt_of_lt_of_le (hinv.bound n hn') hfr

theorem ringinv_length_le {h : Heap T} {s cnt : Nat} {ns : List Nat}
    (hinv : RingInv h s cnt ns) : ns.length ≤ h.fresh :=
  nodup_bound_length (hinv.nodup.of_cons)
    (fun n hn => hinv.bound n (List.mem_cons_of_mem s hn))

theorem ringinv_insert (h : Heap T) (s cnt : Nat) (xs ys : List Nat) (v : T)
    (hinv : RingInv h s cnt (xs ++ ys)) :
    RingInv
      (klistAddBetween
        (Heap.setVal
          { h with fresh := h.fresh + 1, allocd := h.fresh :: h.allocd } h.fresh v)
        h.fresh (xs.getLastD s) (ys.headD s))
      s (cnt + 1) (xs ++ h.fresh :: ys) := by
  obtain ⟨hf, hb, hnd, hbd, hcnt⟩ := hinv
  have hd : h.fresh ∉ s :: (xs ++ ys) := fun hm => lt_irrefl _ (hbd _ hm)
  have hI := ring_insert
    (Heap.setVal { h with fresh := h.fresh + 1, allocd := h.fresh :: h.allocd } h.fresh v)
    s xs ys h.fresh hf hb hnd hd
  refine ⟨hI.1, hI.2, ?_, ?_, ?_⟩
  · have he1 : (s :: xs) ++ h.fresh :: ys = s :: (xs ++ h.fresh :: ys) := by simp
    rw [← he1, List.nodup_middle, List.nodup_cons]
    constructor
    · intro hm
      apply hd
      rcases List.mem_append.mp hm with h1 | h1
      · rcases List.mem_cons.mp h1 with h2 | h2
        · rw [h2]; exact List.mem_cons_self _ _
        · exact List.mem_cons_of_mem _ (List.mem_append_left _ h2)
      · exact List.mem_cons_of_mem _ (List.mem_append_right _ h1)
    · have he2 : (s :: xs) ++ ys = s :: (xs ++ ys) := by simp
      rw [he2]
      exact hnd
  · intro n hn
    show n < h.fresh + 1
    rcases List.mem_cons.mp hn with h1 | h1
    · rw [h1]
      exact Nat.lt_succ_of_lt (hbd _ (List.mem_cons_self _ _))
    · rcases List.mem_append.mp h1 with h2 | h2
      · exact Nat.lt_succ_of_lt
          (hbd _ (List.mem_cons_of_mem _ (List.mem_append_left _ h2)))
      · rcases List.mem_cons.mp h2 with h3 | h3
        · rw [h3]; exact Nat.lt_succ_self _
        · exact Nat.lt_succ_of_lt
            (hbd _ (List.mem_cons_of_mem _ (List.mem_append_right _ h3)))
  · rw [hcnt]
    simp only [List.length_append, List.length_cons]
    omega

theorem ringinv_delete (h : Heap T) (s cnt : Nat) (xs ys : List Nat) (u : Nat)
    (hinv : RingInv h s cnt (xs ++ u :: ys)) :
    RingInv (deallocate (listDel h u) u) s (cnt - 1) (xs ++ ys) := by
  obtain ⟨hf, hb, hnd, hbd, hcnt⟩ := hinv
  have hD := ring_delete h s xs ys u hf hb hnd
  have hsub : List.Sublist (s :: (xs ++ ys)) (s :: (xs ++ u :: ys)) :=
    List.cons_sublist_cons.mpr
      ((List.sublist_cons_self u ys).append_left xs)
  refine ⟨hD.1, hD.2, ?_, ?_, ?_⟩
  · exact List.Nodup.sublist hsub hnd
  · intro n hn
    show n < h.fresh
    exact hbd _ (hsub.mem hn)
  · rw [hcnt]
    simp only [List.length_append, List.length_cons]
    omega

theorem addImpl_allocFail (σ : St T) (v : T) (inTail : Bool) (queue : Nat) (c : Bool) :
    addImpl σ v inTail queue false c = (σ, false) := rfl

theorem addImpl_ctorFail (σ : St T) (v : T) (inTail : Bool) (queue : Nat) :
    addImpl σ v inTail queue true false =
      ({ σ with heap := { σ.heap with fresh := σ.heap.fresh + 1 } }, false) := by
  show ({ σ with
      heap := deallocate
        { σ.heap with fresh := σ.heap.fresh + 1, allocd := σ.heap.fresh :: σ.heap.allocd }
        σ.heap.fresh }, false) = _
  rw [show deallocate
        { σ.heap with fresh := σ.heap.fresh + 1, allocd := σ.heap.fresh :: σ.heap.allocd }
        σ.heap.fresh = { σ.heap with fresh := σ.heap.fresh + 1 } by
    simp only [deallocate]
    rw [List.erase_cons_head]]

theorem addImpl_ok (σ : St T) (xs ys : List Nat) (v : T) (inTail : Bool) (queue : Nat)
    (hinv : StInv σ (xs ++ ys))
    (hqueue : queue = if inTail then ys.headD σ.sent else xs.getLastD σ.sent) :
    addImpl σ v inTail queue true true =
      ({ σ with
          heap := klistAddBetween
            (Heap.setVal
              { σ.heap with fresh := σ.heap.fresh + 1, allocd := σ.heap.fresh :: σ.heap.allocd } σ.heap.fresh v)
            σ.heap.fresh (xs.getLastD σ.sent) (ys.headD σ.sent),
          cnt := σ.cnt + 1 }, true) := by
  obtain ⟨hf, hb, _, _, _⟩ := hinv
  have F1 : σ.heap.nxt (xs.getLastD σ.sent) = ys.headD σ.sent :=
    rlinks_head σ.heap.nxt (rlinks_append_right σ.heap.nxt xs ys hf)
  have F2 : σ.heap.prv (ys.headD σ.sent) = xs.getLastD σ.sent := by
    rw [(by simp : (xs ++ ys).reverse = ys.reverse ++ xs.reverse)] at hb
    have := rlinks_head σ.heap.prv (rlinks_append_right σ.heap.prv ys.reverse xs.reverse hb)
    rwa [getLastD_reverse, headD_reverse] at this
  cases inTail with
  | true =>
    rw [if_pos rfl] at hqueue
    subst hqueue
    show ({ σ with
        heap := klistAddBetween
          (Heap.setVal
            { σ.heap with fresh := σ.heap.fresh + 1, allocd := σ.heap.fresh :: σ.heap.allocd } σ.heap.fresh v)
          σ.heap.fresh (σ.heap.prv (ys.headD σ.sent)) (ys.headD σ.sent),
        cnt := σ.cnt + 1 }, true) = _
    rw [F2]
  | false =>
    rw [if_neg Bool.false_ne_true] at hqueue
    subst hqueue
    show ({ σ with
        heap := klistAddBetween
          (Heap.setVal
            { σ.heap with fresh := σ.heap.fresh + 1, allocd := σ.heap.fresh :: σ.heap.allocd } σ.heap.fresh v)
          σ.heap.fresh (xs.getLastD σ.sent) (σ.heap.nxt (xs.getLastD σ.sent)),
        cnt := σ.cnt + 1 }, true) = _
    rw [F1]

theorem addImpl_ok_inv (σ : St T) (xs ys : List Nat) (v : T) (inTail : Bool) (queue : Nat)
    (hinv : StInv σ (xs ++ ys))
    (hqueue : queue = if inTail then ys.headD σ.sent else xs.getLastD σ.sent) :
    (addImpl σ v inTail queue true true).2 = true ∧
    StInv (addImpl σ v inTail queue true true).1 (xs ++ σ.heap.fresh :: ys) ∧
    (addImpl σ v inTail queue true true).1.heap.val =
      Function.update σ.heap.val σ.heap.fresh v ∧
    (addImpl σ v inTail queue true true).1.heap.fresh = σ.heap.fresh + 1 ∧
    (addImpl σ v inTail queue true true).1.sent = σ.sent ∧
    (addImpl σ v inTail queue true true).1.cnt = σ.cnt + 1 := by
  rw [addImpl_ok σ xs ys v inTail queue hinv hqueue]
  exact ⟨rfl, ringinv_insert σ.heap σ.sent σ.cnt xs ys v hinv, rfl, rfl, rfl, rfl⟩

theorem iterSteps_inv (σ : St T) (ns : List Nat) (hinv : StInv σ ns) :
    ∀ (i : Nat) (it : Iten),
      it.fEntry ∈ σ.sent :: ns → it.fEntry2 = σ.heap.nxt it.fEntry →
      it.fQueue = σ.sent →
      (iterSteps σ.heap it i).fEntry ∈ σ.sent :: ns ∧
      (iterSteps σ.heap it i).fEntry2 = σ.heap.nxt (iterSteps σ.heap it i).fEntry ∧
      (iterSteps σ.heap it i).fQueue = σ.sent := by
  intro i
  induction i with
  | zero => exact fun it h1 h2 h3 => ⟨h1, h2, h3⟩
  | succ n ih =>
    intro it h1 h2 h3
    have hstep : (Iten.next σ.heap it).fEntry ∈ σ.sent :: ns := by
      show it.fEntry2 ∈ σ.sent :: ns
      rw [h2]
      exact ring_closed hinv.fwd h1
    exact ih (Iten.next σ.heap it) hstep rfl h3

theorem begin_inv (σ : St T) (ns : List Nat) (hinv : StInv σ ns) :
    σ.begin.fEntry ∈ σ.sent :: ns ∧ σ.begin.fEntry2 = σ.heap.nxt σ.begin.fEntry ∧
    σ.begin.fQueue = σ.sent :=
  ⟨ring_closed hinv.fwd (List.mem_cons_self _ _), rfl, rfl⟩

theorem removeOneLoop_clean [DecidableEq T] (v : T) (s : Nat) :
    ∀ (ys xs : List Nat) (h : Heap T) (cnt : Nat) (dat : Option Nat) (fuel : Nat),
      RingInv h s cnt (xs ++ ys) → (∀ n ∈ ys, ¬ h.val n = v) → ys.length < fuel →
      ∃ dat', removeOneLoop h cnt v s dat (ys.headD s) fuel = (h, cnt, dat') := by
  intro ys
  induction ys with
  | nil =>
    intro xs h cnt dat fuel _ _ hfuel
    cases fuel with
    | zero => omega
    | succ m => exact ⟨dat, by simp [removeOneLoop]⟩
  | cons y ys ih =>
    intro xs h cnt dat fuel hinv hno hfuel
    cases fuel with
    | zero => simp at hfuel
    | succ m =>
      have hy_in : y ∈ xs ++ y :: ys :=
        List.mem_append_right _ (List.mem_cons_self _ _)
      have hy_ne : y ≠ s := fun he =>
        (List.nodup_cons.mp hinv.nodup).1 (he ▸ hy_in)
      have hnxt : h.nxt y = ys.headD s :=
        rlinks_head h.nxt ((rlinks_append_cons h.nxt y s xs s ys).mp hinv.fwd).2
      have hinv' : RingInv h s cnt ((xs ++ [y]) ++ ys) := by
        rw [List.append_assoc, List.singleton_append]
        exact hinv
      show ∃ dat', removeOneLoop h cnt v s dat y (m + 1) = (h, cnt, dat')
      simp only [removeOneLoop, if_neg hy_ne,
        if_neg (hno y (List.mem_cons_self _ _)), hnxt]
      exact ih (xs ++ [y]) h cnt (some y) m hinv'
        (fun n hn => hno n (List.mem_cons_of_mem _ hn)) (by simp at hfuel ⊢; omega)

theorem removeOneLoop_found [DecidableEq T] (v : T) (s : Nat) :
    ∀ (as xs : List Nat) (m0 : Nat) (bs : List Nat) (h : Heap T) (cnt : Nat)
      (dat : Option Nat) (fuel : Nat),
      RingInv h s cnt (xs ++ (as ++ m0 :: bs)) → (∀ n ∈ as, ¬ h.val n = v) →
      h.val m0 = v → (as ++ m0 :: bs).length < fuel →
      removeOneLoop h cnt v s dat ((as ++ m0 :: bs).headD s) fuel =
        (deallocate (listDel h m0) m0, cnt - 1, some m0) := by
  intro as
  induction as with
  | nil =>
    intro xs m0 bs h cnt dat fuel hinv _ hm hfuel
    cases fuel with
    | zero => simp at hfuel
    | succ mm =>
      have hm0_in : m0 ∈ xs ++ m0 :: bs :=
        List.mem_append_right _ (List.mem_cons_self _ _)
      have hm0_ne : m0 ≠ s := fun he =>
        (List.nodup_cons.mp hinv.nodup).1 (by rw [← List.nil_append (m0 :: bs)]; exact he ▸ hm0_in)
      show removeOneLoop h cnt v s dat m0 (mm + 1) = _
      simp only [removeOneLoop, if_neg hm0_ne, if_pos hm]
  | cons a as ih =>
    intro xs m0 bs h cnt dat fuel hinv hno hm hfuel
    cases fuel with
    | zero => simp at hfuel
    | succ mm =>
      have hlist : xs ++ (a :: as ++ m0 :: bs) = xs ++ a :: (as ++ m0 :: bs) := by simp
      rw [hlist] at hinv
      have ha_in : a ∈ xs ++ a :: (as ++ m0 :: bs) :=
        List.mem_append_right _ (List.mem_cons_self _ _)
      have ha_ne : a ≠ s := fun he =>
        (List.nodup_cons.mp hinv.nodup).1 (he ▸ ha_in)
      have hnxt : h.nxt a = (as ++ m0 :: bs).headD s :=
        rlinks_head h.nxt
          ((rlinks_append_cons h.nxt a s xs s (as ++ m0 :: bs)).mp hinv.fwd).2
      have hinv' : RingInv h s cnt ((xs ++ [a]) ++ (as ++ m0 :: bs)) := by
        rw [List.append_assoc, List.singleton_append]
        exact hinv
      show removeOneLoop h cnt v s dat a (mm + 1) = _
      simp only [removeOneLoop, if_neg ha_ne,
        if_neg (hno a (List.mem_cons_self _ _)), hnxt]
      exact ih (xs ++ [a]) m0 bs h cnt (some a) mm hinv'
        (fun n hn => hno n (List.mem_cons_of_mem _ hn)) hm (by simp at hfuel ⊢; omega)

theorem removeOne_inv [DecidableEq T] (σ : St T) (ns : List Nat) (v : T)
    (hinv : StInv σ ns) :
    StInv (removeOne σ v).1 (ns.eraseP (fun n => decide (σ.heap.val n = v))) ∧
    (removeOne σ v).1.heap.val = σ.heap.val ∧
    (removeOne σ v).1.heap.fresh = σ.heap.fresh ∧
    (removeOne σ v).1.sent = σ.sent := by
  have hentry : σ.heap.nxt σ.sent = ns.headD σ.sent := rlinks_head _ hinv.fwd
  have hfuel : ns.length < σ.heap.fresh + 1 := Nat.lt_succ_of_le (ringinv_length_le hinv)
  by_cases hex : ∀ n ∈ ns, ¬ σ.heap.val n = v
  · obtain ⟨dat', heq⟩ := removeOneLoop_clean v σ.sent ns [] σ.heap σ.cnt none
      (σ.heap.fresh + 1) (by simpa using hinv) hex hfuel
    have hres : (removeOne σ v).1 = σ := by
      simp only [removeOne]
      rw [hentry, heq]
    rw [hres, List.eraseP_of_forall_not (by intro a ha; simp [hex a ha])]
    exact ⟨hinv, rfl, rfl, rfl⟩
  · push_neg at hex
    obtain ⟨n0, hn0_mem, hn0v⟩ := hex
    obtain ⟨m0, as, bs, hno, hpm, hsplit, herase⟩ :=
      List.exists_of_eraseP hn0_mem (p := fun n => decide (σ.heap.val n = v))
        (by simp [hn0v])
    have hm0v : σ.heap.val m0 = v := by simpa using hpm
    have hno' : ∀ n ∈ as, ¬ σ.heap.val n = v := by
      intro n hn
      have := hno n hn
      simpa using this
    have heq := removeOneLoop_found v σ.sent as [] m0 bs σ.heap σ.cnt none
      (σ.heap.fresh + 1) (by rw [List.nil_append, ← hsplit]; exact hinv) hno' hm0v
      (by rw [← hsplit]; exact hfuel)
    have hres : (removeOne σ v).1 =
        { σ with heap := deallocate (listDel σ.heap m0) m0, cnt := σ.cnt - 1 } := by
      simp only [removeOne]
      rw [hentry, hsplit, heq]
    rw [hres, herase]
    exact ⟨ringinv_delete σ.heap σ.sent σ.cnt as bs m0
      (by rw [← hsplit]; exact hinv), rfl, rfl, rfl⟩

theorem removeAllLoop_inv [DecidableEq T] (v : T) (s : Nat) :
    ∀ (ys : List Nat) (h : Heap T) (cnt : Nat) (xs : List Nat) (fuel : Nat),
      RingInv h s cnt (xs ++ ys) → ys.length < fuel →
      ∃ h' cnt',
        removeAllLoop h cnt v s (ys.headD s) fuel = (h', cnt') ∧
        RingInv h' s cnt' (xs ++ ys.filter (fun n => ! decide (h.val n = v))) ∧
        h'.val = h.val ∧ h'.fresh = h.fresh := by
  intro ys
  induction ys with
  | nil =>
    intro h cnt xs fuel hinv hfuel
    cases fuel with
    | zero => omega
    | succ m =>
      refine ⟨h, cnt, by simp [removeAllLoop], ?_, rfl, rfl⟩
      simpa using hinv
  | cons y ys ih =>
    intro h cnt xs fuel hinv hfuel
    cases fuel with
    | zero => simp at hfuel
    | succ m =>
      have hy_in : y ∈ xs ++ y :: ys :=
        List.mem_append_right _ (List.mem_cons_self _ _)
      have hy_ne : y ≠ s := fun he =>
        (List.nodup_cons.mp hinv.nodup).1 (he ▸ hy_in)
      have hnxt : h.nxt y = ys.headD s :=
        rlinks_head h.nxt ((rlinks_append_cons h.nxt y s xs s ys).mp hinv.fwd).2
      have hfuel' : ys.length < m := by simp at hfuel ⊢; omega
      by_cases hval : h.val y = v
      · have hinv1 : RingInv (deallocate (listDel h y) y) s (cnt - 1) (xs ++ ys) :=
          ringinv_delete h s cnt xs ys y hinv
        obtain ⟨h', cnt', heq, hinv', hval', hfresh'⟩ :=
          ih (deallocate (listDel h y) y) (cnt - 1) xs m hinv1 hfuel'
        refine ⟨h', cnt', ?_, ?_, hval', hfresh'⟩
        · show removeAllLoop h cnt v s y (m + 1) = (h', cnt')
          simp only [removeAllLoop, if_neg hy_ne, if_pos hval, hnxt]
          exact heq
        · rw [List.filter_cons_of_neg (by simp [hval])]
          exact hinv'
      · have hinv1 : RingInv h s cnt ((xs ++ [y]) ++ ys) := by
          rw [List.append_assoc, List.singleton_append]
          exact hinv
        obtain ⟨h', cnt', heq, hinv', hval', hfresh'⟩ :=
          ih h cnt (xs ++ [y]) m hinv1 hfuel'
        refine ⟨h', cnt', ?_, ?_, hval', hfresh'⟩
        · show removeAllLoop h cnt v s y (m + 1) = (h', cnt')
          simp only [removeAllLoop, if_neg hy_ne, if_neg hval, hnxt]
          exact heq
        · rw [List.filter_cons_of_pos (by simp [hval])]
          rw [List.append_assoc, List.singleton_append] at hinv'
          exact hinv'

theorem removeAll_inv [DecidableEq T] (σ : St T) (ns : List Nat) (v : T)
    (hinv : StInv σ ns) :
    StInv (removeAll σ v) (ns.filter (fun n => ! decide (σ.heap.val n = v))) ∧
    (removeAll σ v).heap.val = σ.heap.val ∧
    (removeAll σ v).heap.fresh = σ.heap.fresh ∧
    (removeAll σ v).sent = σ.sent := by
  have hentry : σ.heap.nxt σ.sent = ns.headD σ.sent := rlinks_head _ hinv.fwd
  have hfuel : ns.length < σ.heap.fresh + 1 := Nat.lt_succ_of_le (ringinv_length_le hinv)
  obtain ⟨h', cnt', heq, hinv', hval', hfresh'⟩ :=
    removeAllLoop_inv v σ.sent ns σ.heap σ.cnt [] (σ.heap.fresh + 1)
      (by simpa using hinv) hfuel
  have hres : removeAll σ v = { σ with heap := h', cnt := cnt' } := by
    simp only [removeAll]
    rw [hentry, heq]
  rw [hres]
  exact ⟨by simpa using hinv', hval', hfresh', rfl⟩

theorem getAtLoop_remove_inv (s : Nat) :
    ∀ (ys : List Nat) (h : Heap T) (cnt index : Nat) (r : T) (xs : List Nat) (i : Nat)
      (fuel : Nat),
      RingInv h s cnt (xs ++ ys) → i = xs.length → i ≤ index →
      index < i + ys.length → ys.length < fuel →
      ∃ h' cnt' r' ns',
        getAtLoop h cnt index s true r i (ys.headD s) fuel = (h', cnt', r') ∧
        RingInv h' s cnt' ns' ∧ h'.val = h.val ∧ h'.fresh = h.fresh := by
  intro ys
  induction ys with
  | nil =>
    intro h cnt index r xs i fuel _ _ h1 h2 _
    simp at h2
    omega
  | cons y ys ih =>
    intro h cnt index r xs i fuel hinv hi hle hlt hfuel
    cases fuel with
    | zero => simp at hfuel
    | succ m =>
      have hy_in : y ∈ xs ++ y :: ys :=
        List.mem_append_right _ (List.mem_cons_self _ _)
      have hy_ne : y ≠ s := fun he =>
        (List.nodup_cons.mp hinv.nodup).1 (he ▸ hy_in)
      have hnxt : h.nxt y = ys.headD s :=
        rlinks_head h.nxt ((rlinks_append_cons h.nxt y s xs s ys).mp hinv.fwd).2
      by_cases hidx : index = i
      · refine ⟨deallocate (listDel h y) y, cnt - 1, h.val y, xs ++ ys, ?_, ?_, rfl, rfl⟩
        · show getAtLoop h cnt index s true r i y (m + 1) = _
          simp only [getAtLoop, if_neg hy_ne, if_neg (by omega : ¬ index ≠ i), if_true]
        · exact ringinv_delete h s cnt xs ys y hinv
      · have hinv1 : RingInv h s cnt ((xs ++ [y]) ++ ys) := by
          rw [List.append_assoc, List.singleton_append]
          exact hinv
        obtain ⟨h', cnt', r', ns', heq, hinv', hval', hfresh'⟩ :=
          ih h cnt index r (xs ++ [y]) (i + 1) m hinv1 (by simp [hi]) (by omega)
            (by simp at hlt ⊢; omega) (by simp at hfuel ⊢; omega)
        refine ⟨h', cnt', r', ns', ?_, hinv', hval', hfresh'⟩
        show getAtLoop h cnt index s true r i y (m + 1) = _
        simp only [getAtLoop, if_neg hy_ne, if_pos hidx, hnxt]
        exact heq

theorem clearLoop_fresh (s : Nat) :
    ∀ (fuel : Nat) (h : Heap T) (entry : Nat),
      (clearLoop h s entry fuel).fresh = h.fresh := by
  intro fuel
  induction fuel with
  | zero => intro h entry; rfl
  | succ m ih =>
    intro h entry
    simp only [clearLoop]
    split
    · rfl
    · exact ih (deallocate h entry) (h.nxt entry)

theorem clear_inv (σ : St T) (ns : List Nat) (hinv : StInv σ ns) :
    StInv (clear σ) [] ∧ (clear σ).heap.fresh = σ.heap.fresh ∧
    (clear σ).sent = σ.sent := by
  have hsf : σ.sent < σ.heap.fresh := hinv.bound _ (List.mem_cons_self _ _)
  have hfr : (clear σ).heap.fresh = σ.heap.fresh := by
    show (initListHead
      (if σ.cnt ≠ 0 then clearLoop σ.heap σ.sent (σ.heap.nxt σ.sent) (σ.heap.fresh + 1)
       else σ.heap) σ.sent).fresh = σ.heap.fresh
    rw [initListHead_fresh]
    split
    · exact clearLoop_fresh σ.sent _ _ _
    · rfl
  refine ⟨⟨?_, ?_, by simp, ?_, rfl⟩, hfr, rfl⟩
  · exact Function.update_same _ _ _
  · exact Function.update_same _ _ _
  · intro n hn
    rw [List.mem_singleton] at hn
    rw [hn]
    exact lt_of_lt_of_le hsf hfr.ge

theorem traverse_of_rlinks (f : Nat → Nat) (s : Nat) :
    ∀ (l : List Nat) (a : Nat) (fuel : Nat),
      rlinks f a l s → s ∉ l → l.length < fuel →
      traverse f s fuel (f a) = some l := by
  intro l
  induction l with
  | nil =>
    intro a fuel h _ hfuel
    cases fuel with
    | zero => omega
    | succ m =>
      have h' : f a = s := h
      rw [h']
      simp [traverse]
  | cons x l ih =>
    intro a fuel h hs hfuel
    cases fuel with
    | zero => simp at hfuel
    | succ m =>
      obtain ⟨h1, h2⟩ := h
      rw [List.mem_cons] at hs
      push_neg at hs
      rw [h1]
      show traverse f s (m + 1) x = some (x :: l)
      have hxs : ¬ x = s := fun he => hs.1 he.symm
      simp only [traverse, if_neg hxs, ih x m h2 hs.2 (by simp at hfuel ⊢; omega)]

theorem ringinv_traversals {h : Heap T} {s cnt : Nat} {ns : List Nat}
    (hinv : RingInv h s cnt ns) :
    traverse h.nxt s (h.fresh + 1) (h.nxt s) = some ns ∧
    traverse h.prv s (h.fresh + 1) (h.prv s) = some ns.reverse := by
  have hs_ns : s ∉ ns := (List.nodup_cons.mp hinv.nodup).1
  have hlen : ns.length < h.fresh + 1 := Nat.lt_succ_of_le (ringinv_length_le hinv)
  constructor
  · exact traverse_of_rlinks h.nxt s ns s (h.fresh + 1) hinv.fwd hs_ns hlen
  · exact traverse_of_rlinks h.prv s ns.reverse s (h.fresh + 1) hinv.bwd
      (fun hm => hs_ns (List.mem_reverse.mp hm)) (by simpa using hlen)

theorem wf_counts (σ : St T) (hwf : WF σ) :
    fwdCount σ = some (count σ) ∧ bwdCount σ = some (count σ) := by
  obtain ⟨ns, hinv⟩ := hwf
  have ht := ringinv_traversals hinv
  constructor
  · rw [fwdCount, fwdNodes, ht.1]
    simp [count, hinv.cntEq]
  · rw [bwdCount, bwdNodes, ht.2]
    simp [count, hinv.cntEq]

theorem stinv_mkSt (d0 : T) : StInv (mkSt d0) [] := by
  refine ⟨?_, ?_, by simp, ?_, rfl⟩
  · rfl
  · rfl
  · intro n hn
    rw [List.mem_singleton] at hn
    rw [hn]
    exact Nat.zero_lt_one

theorem stinv_ctorFail_case {σ σ' : St T} {ns : List Nat} (hinv : StInv σ ns)
    (he : σ' = { σ with heap := { σ.heap with fresh := σ.heap.fresh + 1 } }) :
    StInv σ' ns := by
  rw [he]
  exact ringinv_transport hinv rfl rfl (Nat.le_succ _)

theorem stinv_prv_getLastD {σ : St T} {xs ys : List Nat}
    (hinv : StInv σ (xs ++ ys)) :
    σ.heap.prv (ys.headD σ.sent) = xs.getLastD σ.sent := by
  have hb := hinv.bwd
  rw [(by simp : (xs ++ ys).reverse = ys.reverse ++ xs.reverse)] at hb
  have := rlinks_head σ.heap.prv (rlinks_append_right σ.heap.prv ys.reverse xs.reverse hb)
  rwa [getLastD_reverse, headD_reverse] at this

theorem stinv_nxt_getLastD {σ : St T} {xs ys : List Nat}
    (hinv : StInv σ (xs ++ ys)) :
    σ.heap.nxt (xs.getLastD σ.sent) = ys.headD σ.sent :=
  rlinks_head σ.heap.nxt (rlinks_append_right σ.heap.nxt xs ys hinv.fwd)

theorem runOp_wf [DecidableEq T] (σ : St T) (op : Op T) (hwf : WF σ) :
    WF (runOp σ op) := by
  obtain ⟨ns, hinv⟩ := hwf
  cases op with
  | append v a c =>
    show WF (append σ v a c).1
    cases a with
    | false => exact ⟨ns, hinv⟩
    | true =>
      cases c with
      | false =>
        exact ⟨ns, stinv_ctorFail_case hinv
          (congrArg Prod.fst (addImpl_ctorFail σ v true σ.sent))⟩
      | true =>
        exact ⟨ns ++ σ.heap.fresh :: [],
          (addImpl_ok_inv σ ns [] v true σ.sent (by simpa using hinv) (by simp)).2.1⟩
  | insert v a c =>
    show WF (insert σ v a c).1
    cases a with
    | false => exact ⟨ns, hinv⟩
    | true =>
      cases c with
      | false =>
        exact ⟨ns, stinv_ctorFail_case hinv
          (congrArg Prod.fst (addImpl_ctorFail σ v false σ.sent))⟩
      | true =>
        exact ⟨[] ++ σ.heap.fresh :: ns,
          (addImpl_ok_inv σ [] ns v false σ.sent hinv (by simp)).2.1⟩
  | appendAt v i a c =>
    show WF (appendAt σ v (iterSteps σ.heap σ.begin i) a c).1
    cases a with
    | false => exact ⟨ns, hinv⟩
    | true =>
      cases c with
      | false =>
        exact ⟨ns, stinv_ctorFail_case hinv (congrArg Prod.fst
          (addImpl_ctorFail σ v true
            (σ.heap.nxt (iterSteps σ.heap σ.begin i).fEntry)))⟩
      | true =>
        obtain ⟨hb1, hb2, hb3⟩ := begin_inv σ ns hinv
        have hit := iterSteps_inv σ ns hinv i σ.begin hb1 hb2 hb3
        obtain ⟨xs, ys, hsplit, hlast⟩ := split_at_getLastD hit.1
        have hinv' : StInv σ (xs ++ ys) := hsplit ▸ hinv
        have hq : σ.heap.nxt (iterSteps σ.heap σ.begin i).fEntry = ys.headD σ.sent := by
          rw [← hlast]
          exact stinv_nxt_getLastD hinv'
        exact ⟨xs ++ σ.heap.fresh :: ys,
          (addImpl_ok_inv σ xs ys v true _ hinv' (by rw [if_pos rfl]; exact hq)).2.1⟩
  | insertAt v i a c =>
    show WF (insertAt σ v (iterSteps σ.heap σ.begin i) a c).1
    cases a with
    | false => exact ⟨ns, hinv⟩
    | true =>
      cases c with
      | false =>
        exact ⟨ns, stinv_ctorFail_case hinv (congrArg Prod.fst
          (addImpl_ctorFail σ v false
            (σ.heap.prv (iterSteps σ.heap σ.begin i).fEntry)))⟩
      | true =>
        obtain ⟨hb1, hb2, hb3⟩ := begin_inv σ ns hinv
        have hit := iterSteps_inv σ ns hinv i σ.begin hb1 hb2 hb3
        obtain ⟨xs, ys, hsplit, hhead⟩ := split_at_headD hit.1
        have hinv' : StInv σ (xs ++ ys) := hsplit ▸ hinv
        have hq : σ.heap.prv (iterSteps σ.heap σ.begin i).fEntry = xs.getLastD σ.sent := by
          rw [← hhead]
          exact stinv_prv_getLastD hinv'
        exact ⟨xs ++ σ.heap.fresh :: ys,
          (addImpl_ok_inv σ xs ys v false _ hinv'
            (by rw [if_neg Bool.false_ne_true]; exact hq)).2.1⟩
  | removeIter i =>
    show WF (if (iterSteps σ.heap σ.begin i).valid then
      removeIter σ (Iten.getValue σ.heap (iterSteps σ.heap σ.begin i)).1 else σ)
    by_cases hv : (iterSteps σ.heap σ.begin i).valid = true
    · rw [if_pos hv]
      obtain ⟨hb1, hb2, hb3⟩ := begin_inv σ ns hinv
      have hit := iterSteps_inv σ ns hinv i σ.begin hb1 hb2 hb3
      have hne : (iterSteps σ.heap σ.begin i).fEntry ≠ σ.sent := by
        rw [Iten.valid, bne_iff_ne, hit.2.2] at hv
        exact hv
      have hmemns : (iterSteps σ.heap σ.begin i).fEntry ∈ ns := by
        rcases List.mem_cons.mp hit.1 with he | he
        · exact absurd he hne
        · exact he
      obtain ⟨l1, l2, hsplit⟩ := List.append_of_mem hmemns
      exact ⟨l1 ++ l2, ringinv_delete σ.heap σ.sent σ.cnt l1 l2 _ (hsplit ▸ hinv)⟩
    · rw [if_neg hv]
      exact ⟨ns, hinv⟩
  | removeOne v => exact ⟨_, (removeOne_inv σ ns v hinv).1⟩
  | removeAll v => exact ⟨_, (removeAll_inv σ ns v hinv).1⟩
  | getAtRemove i =>
    show WF (getAt σ i true).1
    by_cases hc : σ.cnt = 0 ∨ i ≥ σ.cnt
    · unfold getAt
      rw [if_pos hc]
      exact ⟨ns, hinv⟩
    · unfold getAt
      rw [if_neg hc]
      push_neg at hc
      have hentry : σ.heap.nxt σ.sent = ns.headD σ.sent := rlinks_head _ hinv.fwd
      have hfuel : ns.length < σ.heap.fresh + 1 :=
        Nat.lt_succ_of_le (ringinv_length_le hinv)
      obtain ⟨h', cnt', r', ns', heq, hinv', _, _⟩ :=
        getAtLoop_remove_inv σ.sent ns σ.heap σ.cnt i σ.retVal [] 0 (σ.heap.fresh + 1)
          (by simpa using hinv) rfl (Nat.zero_le i)
          (by have := hinv.cntEq; omega) hfuel
      rw [hentry, heq]
      exact ⟨ns', hinv'⟩
  | clear => exact ⟨[], (clear_inv σ ns hinv).1⟩

theorem run_wf [DecidableEq T] (d0 : T) (ops : List (Op T)) : WF (run d0 ops) := by
  suffices h : ∀ (l : List (Op T)) (σ : St T), WF σ → WF (l.foldl runOp σ) from
    h ops (mkSt d0) ⟨[], stinv_mkSt d0⟩
  intro l
  induction l with
  | nil => exact fun σ h => h
  | cons op l ih => exact fun σ h => ih _ (runOp_wf σ op h)

theorem iterVisit_spec (h : Heap T) (s : Nat) :
    ∀ (ys xs : List Nat) (cnt : Nat) (it : Iten) (fuel : Nat),
      RingInv h s cnt (xs ++ ys) → it.fQueue = s → it.fEntry = ys.headD s →
      it.fEntry2 = h.nxt it.fEntry → ys.length < fuel →
      iterVisit h it fuel = ys.map h.val := by
  intro ys
  induction ys with
  | nil =>
    intro xs cnt it fuel _ hq he _ hfuel
    cases fuel with
    | zero => omega
    | succ m =>
      have hval : it.valid = false := by
        simp [Iten.valid, he, hq]
      simp [iterVisit, hval]
  | cons y ys ih =>
    intro xs cnt it fuel hinv hq he h2 hfuel
    cases fuel with
    | zero => simp at hfuel
    | succ m =>
      have hy_in : y ∈ xs ++ y :: ys :=
        List.mem_append_right _ (List.mem_cons_self _ _)
      have hy_ne : y ≠ s := fun hee =>
        (List.nodup_cons.mp hinv.nodup).1 (hee ▸ hy_in)
      have hval : it.valid = true := by
        simp [Iten.valid, he, hq]
        exact hy_ne
      have hnxt : h.nxt y = ys.headD s :=
        rlinks_head h.nxt ((rlinks_append_cons h.nxt y s xs s ys).mp hinv.fwd).2
      have hinv' : RingInv h s cnt ((xs ++ [y]) ++ ys) := by
        rw [List.append_assoc, List.singleton_append]
        exact hinv
      simp only [iterVisit, hval, if_true, List.map_cons]
      congr 1
      · show h.val it.fEntry = h.val y
        rw [he]
        rfl
      · refine ih (xs ++ [y]) cnt (Iten.next h (Iten.getValue h it).1) m hinv' hq ?_ rfl
          (by simp at hfuel ⊢; omega)
        show it.fEntry2 = ys.headD s
        rw [h2, he]
        exact hnxt

theorem visit_eq (σ : St T) (ns : List Nat) (hinv : StInv σ ns) :
    visit σ = ns.map σ.heap.val := by
  have hfuel : ns.length < σ.heap.fresh + 1 := Nat.lt_succ_of_le (ringinv_length_le hinv)
  have he : σ.begin.fEntry = ns.headD σ.sent := by
    show σ.heap.nxt σ.sent = ns.headD σ.sent
    exact rlinks_head _ hinv.fwd
  exact iterVisit_spec σ.heap σ.sent ns [] σ.cnt σ.begin (σ.heap.fresh + 1)
    (by simpa using hinv) rfl he rfl hfuel

/-! ### Claims -/

/-- C1: for every sequence of append / insert / appendAt / insertAt /
remove-via-iterator / removeOne / removeAll / getAt-with-remove / clear
operations on a list (allocation and construction allowed to fail at any
step), `count()` equals the number of non-sentinel nodes reachable by
following `next` from the sentinel back to itself, and also equals the
number reachable by following `previous`. -/
theorem count_eq_forward_and_backward_reachable [DecidableEq T] (d0 : T)
    (ops : List (Op T)) :
    fwdCount (run d0 ops) = some (count (run d0 ops)) ∧
    bwdCount (run d0 ops) = some (count (run d0 ops)) :=
  wf_counts (run d0 ops) (run_wf d0 ops)

/-- C2: a failing allocation during `append` or `insert` returns `false` and
leaves the list object literally unchanged (so `count()` and the element
sequence are unchanged and no partial node is reachable), and a subsequent
`append` with a succeeding allocator still succeeds and increments `count()`
by one. -/
theorem alloc_failure_no_mutation (σ : St T) (v w : T) (c : Bool) :
    append σ v false c = (σ, false) ∧
    insert σ v false c = (σ, false) ∧
    (append σ w true true).2 = true ∧
    count (append σ w true true).1 = count σ + 1 :=
  ⟨rfl, rfl, rfl, rfl⟩

/-- C4: under constructed discipline, a value-construction/assignment failure
inside `append`/`insert` deallocates the just-allocated node before returning
`false` (the allocated-id set is exactly as before), and the list state —
`count()` and the element sequence seen by iteration — is unchanged. -/
theorem ctor_failure_cleanup (σ : St T) (ns : List Nat) (v : T) (hinv : StInv σ ns) :
    (append σ v true false).2 = false ∧
    (append σ v true false).1.heap.allocd = σ.heap.allocd ∧
    count (append σ v true false).1 = count σ ∧
    visit (append σ v true false).1 = visit σ ∧
    (insert σ v true false).2 = false ∧
    (insert σ v true false).1.heap.allocd = σ.heap.allocd ∧
    count (insert σ v true false).1 = count σ ∧
    visit (insert σ v true false).1 = visit σ := by
  have ha := addImpl_ctorFail σ v true σ.sent
  have hi := addImpl_ctorFail σ v false σ.sent
  have hinv' : StInv ({ σ with heap := { σ.heap with fresh := σ.heap.fresh + 1 } }) ns :=
    stinv_ctorFail_case hinv rfl
  have hv : visit ({ σ with heap := { σ.heap with fresh := σ.heap.fresh + 1 } } : St T)
      = visit σ := by
    rw [visit_eq _ ns hinv', visit_eq σ ns hinv]
  refine ⟨?_, ?_, ?_, ?_, ?_, ?_, ?_, ?_⟩
  · rw [show append σ v true false = addImpl σ v true σ.sent true false from rfl, ha]
  · rw [show append σ v true false = addImpl σ v true σ.sent true false from rfl, ha]
  · rw [show append σ v true false = addImpl σ v true σ.sent true false from rfl, ha]
    rfl
  · rw [show append σ v true false = addImpl σ v true σ.sent true false from rfl, ha]
    exact hv
  · rw [show insert σ v true false = addImpl σ v false σ.sent true false from rfl, hi]
  · rw [show insert σ v true false = addImpl σ v false σ.sent true false from rfl, hi]
  · rw [show insert σ v true false = addImpl σ v false σ.sent true false from rfl, hi]
    rfl
  · rw [show insert σ v true false = addImpl σ v false σ.sent true false from rfl, hi]
    exact hv

theorem appendAll_inv :
    ∀ (vs : List T) (σ : St T) (ns : List Nat), StInv σ ns →
      StInv (appendAll σ vs) (ns ++ List.range' σ.heap.fresh vs.length) ∧
      (appendAll σ vs).heap.fresh = σ.heap.fresh + vs.length ∧
      (appendAll σ vs).sent = σ.sent ∧
      (∀ n, n < σ.heap.fresh → (appendAll σ vs).heap.val n = σ.heap.val n) ∧
      (List.range' σ.heap.fresh vs.length).map (appendAll σ vs).heap.val = vs := by
  intro vs
  induction vs with
  | nil =>
    intro σ ns hinv
    exact ⟨by simpa using hinv, by simp [appendAll], rfl, fun n _ => rfl, by simp⟩
  | cons v vs ih =>
    intro σ ns hinv
    obtain ⟨-, hinv1, hval10, hfresh10, hsent10, -⟩ :=
      addImpl_ok_inv σ ns [] v true σ.sent (by simpa using hinv) (by simp)
    have hval1 : (append σ v true true).1.heap.val =
        Function.update σ.heap.val σ.heap.fresh v := hval10
    have hfresh1 : (append σ v true true).1.heap.fresh = σ.heap.fresh + 1 := hfresh10
    have hsent1 : (append σ v true true).1.sent = σ.sent := hsent10
    obtain ⟨hI, hF, hS, hVold, hVnew⟩ :=
      ih (append σ v true true).1 (ns ++ σ.heap.fresh :: []) hinv1
    rw [hfresh1] at hI hF hVnew
    rw [show appendAll σ (v :: vs) = appendAll (append σ v true true).1 vs from rfl]
    have hrange : List.range' σ.heap.fresh (v :: vs).length =
        σ.heap.fresh :: List.range' (σ.heap.fresh + 1) vs.length := by
      rw [List.length_cons, List.range'_succ]
    refine ⟨?_, ?_, ?_, ?_, ?_⟩
    · rw [hrange]
      have : ns ++ σ.heap.fresh :: List.range' (σ.heap.fresh + 1) vs.length =
          (ns ++ σ.heap.fresh :: []) ++ List.range' (σ.heap.fresh + 1) vs.length := by
        simp
      rw [this]
      exact hI
    · rw [hF, List.length_cons]
      omega
    · rw [hS, hsent1]
    · intro n hn
      have hlt : n < (append σ v true true).1.heap.fresh := by rw [hfresh1]; omega
      rw [hVold n hlt, hval1]
      have hne : n ≠ σ.heap.fresh := by omega
      exact Function.update_noteq hne v σ.heap.val
    · rw [hrange, List.map_cons, hVnew]
      have hfv : (appendAll (append σ v true true).1 vs).heap.val σ.heap.fresh = v := by
        have hlt : σ.heap.fresh < (append σ v true true).1.heap.fresh := by
          rw [hfresh1]; omega
        rw [hVold σ.heap.fresh hlt, hval1]
        exact Function.update_same _ _ _
      rw [hfv]

theorem insertAll_inv :
    ∀ (vs : List T) (σ : St T) (ns : List Nat), StInv σ ns →
      StInv (insertAll σ vs) ((List.range' σ.heap.fresh vs.length).reverse ++ ns) ∧
      (insertAll σ vs).heap.fresh = σ.heap.fresh + vs.length ∧
      (insertAll σ vs).sent = σ.sent ∧
      (∀ n, n < σ.heap.fresh → (insertAll σ vs).heap.val n = σ.heap.val n) ∧
      (List.range' σ.heap.fresh vs.length).map (insertAll σ vs).heap.val = vs := by
  intro vs
  induction vs with
  | nil =>
    intro σ ns hinv
    exact ⟨by simpa using hinv, by simp [insertAll], rfl, fun n _ => rfl, by simp⟩
  | cons v vs ih =>
    intro σ ns hinv
    obtain ⟨-, hinv1, hval10, hfresh10, hsent10, -⟩ :=
      addImpl_ok_inv σ [] ns v false σ.sent hinv (by simp)
    have hval1 : (insert σ v true true).1.heap.val =
        Function.update σ.heap.val σ.heap.fresh v := hval10
    have hfresh1 : (insert σ v true true).1.heap.fresh = σ.heap.fresh + 1 := hfresh10
    have hsent1 : (insert σ v true true).1.sent = σ.sent := hsent10
    obtain ⟨hI, hF, hS, hVold, hVnew⟩ :=
      ih (insert σ v true true).1 ([] ++ σ.heap.fresh :: ns) hinv1
    rw [hfresh1] at hI hF hVnew
    rw [show insertAll σ (v :: vs) = insertAll (insert σ v true true).1 vs from rfl]
    have hrange : List.range' σ.heap.fresh (v :: vs).length =
        σ.heap.fresh :: List.range' (σ.heap.fresh + 1) vs.length := by
      rw [List.length_cons, List.range'_succ]
    refine ⟨?_, ?_, ?_, ?_, ?_⟩
    · rw [hrange]
      have : (σ.heap.fresh :: List.range' (σ.heap.fresh + 1) vs.length).reverse ++ ns =
          (List.range' (σ.heap.fresh + 1) vs.length).reverse ++
            ([] ++ σ.heap.fresh :: ns) := by
        simp
      rw [this]
      exact hI
    · rw [hF, List.length_cons]
      omega
    · rw [hS, hsent1]
    · intro n hn
      have hlt : n < (insert σ v true true).1.heap.fresh := by rw [hfresh1]; omega
      rw [hVold n hlt, hval1]
      have hne : n ≠ σ.heap.fresh := by omega
      exact Function.update_noteq hne v σ.heap.val
    · rw [hrange, List.map_cons, hVnew]
      have hfv : (insertAll (insert σ v true true).1 vs).heap.val σ.heap.fresh = v := by
        have hlt : σ.heap.fresh < (insert σ v true true).1.heap.fresh := by
          rw [hfresh1]; omega
        rw [hVold σ.heap.fresh hlt, hval1]
        exact Function.update_same _ _ _
      rw [hfv]

/-- C5: appending values v1..vN to a fresh list and iterating head-to-tail
yields exactly v1..vN in insertion order; inserting (prepending) v1..vN and
iterating yields vN..v1, the reverse insertion order. -/
theorem append_insert_iteration_roundtrip (d0 : T) (vs : List T) :
    visit (appendAll (mkSt d0) vs) = vs ∧
    visit (insertAll (mkSt d0) vs) = vs.reverse := by
  constructor
  · obtain ⟨hI, -, -, -, hV⟩ := appendAll_inv vs (mkSt d0) [] (stinv_mkSt d0)
    rw [visit_eq _ _ hI]
    simpa using hV
  · obtain ⟨hI, -, -, -, hV⟩ := insertAll_inv vs (mkSt d0) [] (stinv_mkSt d0)
    rw [visit_eq _ _ hI]
    rw [List.append_nil, List.map_reverse, hV]

set_option maxHeartbeats 4000000 in
/-- C6: on a 3-element list, the lookahead iterator survives `remove(it)` of
the second element read via `getValue`: the scripted iteration reads the
first, second and third values, the final count is 2, the surviving elements
are the first and third, and the iterator then reports invalid. -/
theorem iterator_survives_mid_iteration_removal (d0 a b c : T) :
    (c6script d0 a b c).1 = (a, b, c) ∧
    count (c6script d0 a b c).2.2 = 2 ∧
    visit (c6script d0 a b c).2.2 = [a, c] ∧
    (c6script d0 a b c).2.1.valid = false := by
  obtain ⟨hI0, -, -, -, hV0⟩ :=
    appendAll_inv [a, b, c] (mkSt d0) [] (stinv_mkSt d0)
  have hI : StInv (appendAll (mkSt d0) [a, b, c]) [1, 2, 3] := hI0
  have hV : [(appendAll (mkSt d0) [a, b, c]).heap.val 1,
      (appendAll (mkSt d0) [a, b, c]).heap.val 2,
      (appendAll (mkSt d0) [a, b, c]).heap.val 3] = [a, b, c] := hV0
  rw [List.cons.injEq, List.cons.injEq, List.cons.injEq] at hV
  obtain ⟨v1, v2, v3, -⟩ := hV
  obtain ⟨n01, n12, n23, n30⟩ := hI.fwd
  have hbwd : rlinks (appendAll (mkSt d0) [a, b, c]).heap.prv
      (appendAll (mkSt d0) [a, b, c]).sent [3, 2, 1]
      (appendAll (mkSt d0) [a, b, c]).sent := hI.bwd
  obtain ⟨p03, p32, p21, p10⟩ := hbwd
  have hc3 : (appendAll (mkSt d0) [a, b, c]).cnt = 3 := hI.cntEq
  refine ⟨?_, ?_, ?_, ?_⟩
  · show ((appendAll (mkSt d0) [a, b, c]).heap.val
        ((appendAll (mkSt d0) [a, b, c]).heap.nxt (appendAll (mkSt d0) [a, b, c]).sent),
      (appendAll (mkSt d0) [a, b, c]).heap.val
        ((appendAll (mkSt d0) [a, b, c]).heap.nxt
          ((appendAll (mkSt d0) [a, b, c]).heap.nxt (appendAll (mkSt d0) [a, b, c]).sent)),
      (appendAll (mkSt d0) [a, b, c]).heap.val
        ((appendAll (mkSt d0) [a, b, c]).heap.nxt
          ((appendAll (mkSt d0) [a, b, c]).heap.nxt
            ((appendAll (mkSt d0) [a, b, c]).heap.nxt
              (appendAll (mkSt d0) [a, b, c]).sent)))) = (a, b, c)
    rw [n01, n12, n23, v1, v2, v3]
  · show (appendAll (mkSt d0) [a, b, c]).cnt - 1 = 2
    omega
  · have heq2 : (c6script d0 a b c).2.2 =
        { appendAll (mkSt d0) [a, b, c] with
          heap := deallocate (listDel (appendAll (mkSt d0) [a, b, c]).heap 2) 2,
          cnt := (appendAll (mkSt d0) [a, b, c]).cnt - 1 } := by
      show ({ appendAll (mkSt d0) [a, b, c] with
          heap := deallocate
            (listDel (appendAll (mkSt d0) [a, b, c]).heap
              ((appendAll (mkSt d0) [a, b, c]).heap.nxt
                ((appendAll (mkSt d0) [a, b, c]).heap.nxt
                  (appendAll (mkSt d0) [a, b, c]).sent)))
            ((appendAll (mkSt d0) [a, b, c]).heap.nxt
              ((appendAll (mkSt d0) [a, b, c]).heap.nxt
                (appendAll (mkSt d0) [a, b, c]).sent)),
          cnt := (appendAll (mkSt d0) [a, b, c]).cnt - 1 } : St T) = _
      rw [n01, n12]
    rw [heq2]
    have hinv2 : StInv
        ({ appendAll (mkSt d0) [a, b, c] with
          heap := deallocate (listDel (appendAll (mkSt d0) [a, b, c]).heap 2) 2,
          cnt := (appendAll (mkSt d0) [a, b, c]).cnt - 1 } : St T) [1, 3] :=
      ringinv_delete (appendAll (mkSt d0) [a, b, c]).heap
        (appendAll (mkSt d0) [a, b, c]).sent
        (appendAll (mkSt d0) [a, b, c]).cnt [1] [3] 2 hI
    rw [visit_eq _ _ hinv2]
    show [(appendAll (mkSt d0) [a, b, c]).heap.val 1,
      (appendAll (mkSt d0) [a, b, c]).heap.val 3] = [a, c]
    rw [v1, v3]
  · show (((deallocate
        (listDel (appendAll (mkSt d0) [a, b, c]).heap
          ((appendAll (mkSt d0) [a, b, c]).heap.nxt
            ((appendAll (mkSt d0) [a, b, c]).heap.nxt
              (appendAll (mkSt d0) [a, b, c]).sent)))
        ((appendAll (mkSt d0) [a, b, c]).heap.nxt
          ((appendAll (mkSt d0) [a, b, c]).heap.nxt
            (appendAll (mkSt d0) [a, b, c]).sent))).nxt
        ((appendAll (mkSt d0) [a, b, c]).heap.nxt
          ((appendAll (mkSt d0) [a, b, c]).heap.nxt
            ((appendAll (mkSt d0) [a, b, c]).heap.nxt
              (appendAll (mkSt d0) [a, b, c]).sent))) !=
      (appendAll (mkSt d0) [a, b, c]).sent) = false)
    rw [n01, n12, n23]
    simp only [deallocate_nxt, listDel_nxt]
    rw [p21]
    have h31 : (3 : Nat) ≠ 1 := by omega
    rw [Function.update_noteq h31, n30]
    exact bne_self_eq_false _

/-- C3 (code evaluation): on the one-element list {10}, `removeOne 20`
matches nothing — 20 is not among the iterated values — yet returns `true`,
because the C++ `data` pointer still holds the last visited entry; the
count stays 1. -/
theorem removeOne_returns_true_without_match :
    (removeOne (appendAll (mkSt (0 : Nat)) [10]) 20).2 = true ∧
    visit (appendAll (mkSt (0 : Nat)) [10]) = [10] ∧
    count (removeOne (appendAll (mkSt (0 : Nat)) [10]) 20).1 = 1 := by
  refine ⟨rfl, rfl, rfl⟩

/-- C8: `removeOne v` removes exactly the first element equal to `v` in
head-to-tail order (at most one element) and preserves the relative order of
all remaining elements: the iterated sequence afterwards is `eraseP` of the
iterated sequence before. -/
theorem removeOne_erases_first_match [DecidableEq T] (σ : St T) (ns : List Nat) (v : T)
    (hinv : StInv σ ns) :
    visit (removeOne σ v).1 = (visit σ).eraseP (fun x => decide (x = v)) := by
  obtain ⟨hinv', hval, -, -⟩ := removeOne_inv σ ns v hinv
  rw [visit_eq _ _ hinv', hval, visit_eq σ ns hinv, List.eraseP_map]
  rfl

theorem removeOne_erases_first_match_witness :
    visit (removeOne (appendAll (mkSt (0 : Nat)) [10, 20, 20, 30]) 20).1 =
      (visit (appendAll (mkSt (0 : Nat)) [10, 20, 20, 30])).eraseP
        (fun x => decide (x = 20)) ∧
    visit (appendAll (mkSt (0 : Nat)) [10, 20, 20, 30]) = [10, 20, 20, 30] ∧
    visit (removeOne (appendAll (mkSt (0 : Nat)) [10, 20, 20, 30]) 20).1 =
      [10, 20, 30] :=
  ⟨removeOne_erases_first_match (appendAll (mkSt (0 : Nat)) [10, 20, 20, 30]) _ 20
      (appendAll_inv [10, 20, 20, 30] (mkSt (0 : Nat)) [] (stinv_mkSt 0)).1,
    by decide, by decide⟩

theorem ctor_failure_cleanup_witness :
    ((append (mkSt (0 : Nat)) 5 true false).2 = false ∧
      (append (mkSt (0 : Nat)) 5 true false).1.heap.allocd = (mkSt (0 : Nat)).heap.allocd ∧
      count (append (mkSt (0 : Nat)) 5 true false).1 = count (mkSt (0 : Nat)) ∧
      visit (append (mkSt (0 : Nat)) 5 true false).1 = visit (mkSt (0 : Nat)) ∧
      (insert (mkSt (0 : Nat)) 5 true false).2 = false ∧
      (insert (mkSt (0 : Nat)) 5 true false).1.heap.allocd = (mkSt (0 : Nat)).heap.allocd ∧
      count (insert (mkSt (0 : Nat)) 5 true false).1 = count (mkSt (0 : Nat)) ∧
      visit (insert (mkSt (0 : Nat)) 5 true false).1 = visit (mkSt (0 : Nat))) :=
  ctor_failure_cleanup (mkSt (0 : Nat)) [] 5 (stinv_mkSt 0)

/-! ### Splicing two rings on a shared heap -/

theorem listEmptyH_nil (h : Heap T) (sA cA : Nat) (hA : RingInv h sA cA []) :
    listEmptyH h sA = true := by
  have hf : h.nxt sA = sA := hA.fwd
  rw [listEmptyH, hf]
  exact beq_self_eq_true sA

theorem listEmptyH_cons (h : Heap T) (sA cA a : Nat) (tl : List Nat)
    (hA : RingInv h sA cA (a :: tl)) : listEmptyH h sA = false := by
  have hane : a ≠ sA := fun he => by
    have hsA : sA ∉ a :: tl := (List.nodup_cons.mp hA.nodup).1
    rw [← he] at hsA
    exact hsA (List.mem_cons_self a tl)
  have hf : h.nxt sA = a := hA.fwd.1
  rw [listEmptyH, hf]
  exact beq_eq_false_iff_ne.mpr hane

theorem splice_nodup (sA sB : Nat) (nsA nsB : List Nat) (hndA : (sA :: nsA).Nodup)
    (hndB : (sB :: nsB).Nodup) (hdisj : ∀ x ∈ sA :: nsA, x ∉ sB :: nsB) :
    (sB :: (nsB ++ nsA)).Nodup ∧ (sB :: (nsA ++ nsB)).Nodup := by
  obtain ⟨hsB, hndB2⟩ := List.nodup_cons.mp hndB
  have hndA2 := (List.nodup_cons.mp hndA).2
  have hsBA : sB ∉ nsA := fun hm =>
    hdisj sB (List.mem_cons_of_mem _ hm) (List.mem_cons_self _ _)
  have hdAB : nsA.Disjoint nsB := by
    intro x hx h2
    exact hdisj x (List.mem_cons_of_mem _ hx) (List.mem_cons_of_mem _ h2)
  have hsBm : sB ∉ nsB ++ nsA := by
    intro hm
    rcases List.mem_append.mp hm with h1 | h1
    · exact hsB h1
    · exact hsBA h1
  have hsBm2 : sB ∉ nsA ++ nsB := by
    intro hm
    rcases List.mem_append.mp hm with h1 | h1
    · exact hsBA h1
    · exact hsB h1
  exact ⟨List.nodup_cons.mpr ⟨hsBm, List.nodup_append.mpr ⟨hndB2, hndA2, hdAB.symm⟩⟩,
    List.nodup_cons.mpr ⟨hsBm2, List.nodup_append.mpr ⟨hndA2, hndB2, hdAB⟩⟩⟩

theorem splice_bound (k sA sB : Nat) (nsA nsB : List Nat)
    (hbA : ∀ n ∈ sA :: nsA, n < k) (hbB : ∀ n ∈ sB :: nsB, n < k) :
    (∀ n ∈ sB :: (nsB ++ nsA), n < k) ∧ (∀ n ∈ sB :: (nsA ++ nsB), n < k) := by
  have hml : ∀ n ∈ nsA, n < k := fun n hn => hbA n (List.mem_cons_of_mem _ hn)
  have hmr : ∀ n ∈ nsB, n < k := fun n hn => hbB n (List.mem_cons_of_mem _ hn)
  have hsB : sB < k := hbB sB (List.mem_cons_self _ _)
  constructor <;> intro n hn <;> rcases List.mem_cons.mp hn with he | he
  · exact he ▸ hsB
  · rcases List.mem_append.mp he with h1 | h1
    · exact hmr n h1
    · exact hml n h1
  · exact he ▸ hsB
  · rcases List.mem_append.mp he with h1 | h1
    · exact hml n h1
    · exact hmr n h1

theorem ringinv_ksplice_tail (h : Heap T) (sA cA sB cB : Nat) (nsA nsB : List Nat)
    (hA : RingInv h sA cA nsA) (hB : RingInv h sB cB nsB)
    (hdisj : ∀ x ∈ sA :: nsA, x ∉ sB :: nsB) (hne : nsA ≠ []) :
    rlinks (klistSplice h sA (h.prv sB) sB).nxt sB (nsB ++ nsA) sB ∧
    rlinks (klistSplice h sA (h.prv sB) sB).prv sB (nsB ++ nsA).reverse sB := by
  have hp : h.prv sB = nsB.getLastD sB := by
    have hh := rlinks_head h.prv hB.bwd
    rwa [headD_reverse] at hh
  have hfB : rlinks h.nxt sB (nsB ++ []) sB := by rw [List.append_nil]; exact hB.fwd
  have hbB : rlinks h.prv sB (nsB ++ []).reverse sB := by
    rw [List.append_nil]; exact hB.bwd
  have hndB : (sB :: (nsB ++ [])).Nodup := by rw [List.append_nil]; exact hB.nodup
  have hdisj2 : ∀ x ∈ sA :: nsA, x ∉ sB :: (nsB ++ []) := by
    simp only [List.append_nil]
    exact hdisj
  have hsp := ring_splice h sA nsA sB nsB [] hA.fwd hA.bwd hfB hbB hA.nodup hndB
    hdisj2 hne
  rw [show List.headD ([] : List Nat) sB = sB from rfl, ← hp] at hsp
  simp only [List.append_nil] at hsp
  exact hsp

theorem ringinv_ksplice_front (h : Heap T) (sA cA sB cB : Nat) (nsA nsB : List Nat)
    (hA : RingInv h sA cA nsA) (hB : RingInv h sB cB nsB)
    (hdisj : ∀ x ∈ sA :: nsA, x ∉ sB :: nsB) (hne : nsA ≠ []) :
    rlinks (klistSplice h sA sB (h.nxt sB)).nxt sB (nsA ++ nsB) sB ∧
    rlinks (klistSplice h sA sB (h.nxt sB)).prv sB (nsA ++ nsB).reverse sB := by
  have hq : h.nxt sB = nsB.headD sB := rlinks_head h.nxt hB.fwd
  have hfB : rlinks h.nxt sB ([] ++ nsB) sB := hB.fwd
  have hbB : rlinks h.prv sB ([] ++ nsB).reverse sB := hB.bwd
  have hndB : (sB :: ([] ++ nsB)).Nodup := hB.nodup
  have hdisj2 : ∀ x ∈ sA :: nsA, x ∉ sB :: ([] ++ nsB) := hdisj
  have hsp := ring_splice h sA nsA sB [] nsB hA.fwd hA.bwd hfB hbB hA.nodup hndB
    hdisj2 hne
  rw [show List.getLastD ([] : List Nat) sB = sB from rfl, ← hq] at hsp
  simp only [List.nil_append] at hsp
  exact hsp

theorem ringinv_splice_tail (h : Heap T) (sA cA sB cB : Nat) (nsA nsB : List Nat)
    (hA : RingInv h sA cA nsA) (hB : RingInv h sB cB nsB)
    (hdisj : ∀ x ∈ sA :: nsA, x ∉ sB :: nsB) :
    RingInv (listSpliceTail h sA sB) sB (cB + cA) (nsB ++ nsA) := by
  cases nsA with
  | nil =>
    have hemp := listEmptyH_nil h sA cA hA
    unfold listSpliceTail
    rw [if_pos hemp, List.append_nil]
    have h0 : cA = 0 := hA.cntEq
    rw [h0]
    exact ⟨hB.fwd, hB.bwd, hB.nodup, hB.bound, hB.cntEq⟩
  | cons a tl =>
    have hemp := listEmptyH_cons h sA cA a tl hA
    have hne' : ¬(listEmptyH h sA = true) := by rw [hemp]; exact Bool.false_ne_true
    unfold listSpliceTail
    rw [if_neg hne']
    obtain ⟨hfw, hbw⟩ := ringinv_ksplice_tail h sA cA sB cB (a :: tl) nsB hA hB hdisj
      (List.cons_ne_nil a tl)
    obtain ⟨hnd1, -⟩ := splice_nodup sA sB (a :: tl) nsB hA.nodup hB.nodup hdisj
    obtain ⟨hb1, -⟩ := splice_bound h.fresh sA sB (a :: tl) nsB hA.bound hB.bound
    refine ⟨hfw, hbw, hnd1, ?_, ?_⟩
    · intro n hn
      rw [klistSplice_fresh]
      exact hb1 n hn
    · rw [hB.cntEq, hA.cntEq]
      exact (List.length_append _ _).symm

theorem ringinv_splice_front (h : Heap T) (sA cA sB cB : Nat) (nsA nsB : List Nat)
    (hA : RingInv h sA cA nsA) (hB : RingInv h sB cB nsB)
    (hdisj : ∀ x ∈ sA :: nsA, x ∉ sB :: nsB) :
    RingInv (listSplice h sA sB) sB (cB + cA) (nsA ++ nsB) := by
  cases nsA with
  | nil =>
    have hemp := listEmptyH_nil h sA cA hA
    unfold listSplice
    rw [if_pos hemp, List.nil_append]
    have h0 : cA = 0 := hA.cntEq
    rw [h0]
    exact ⟨hB.fwd, hB.bwd, hB.nodup, hB.bound, hB.cntEq⟩
  | cons a tl =>
    have hemp := listEmptyH_cons h sA cA a tl hA
    have hne' : ¬(listEmptyH h sA = true) := by rw [hemp]; exact Bool.false_ne_true
    unfold listSplice
    rw [if_neg hne']
    obtain ⟨hfw, hbw⟩ := ringinv_ksplice_front h sA cA sB cB (a :: tl) nsB hA hB hdisj
      (List.cons_ne_nil a tl)
    obtain ⟨-, hnd2⟩ := splice_nodup sA sB (a :: tl) nsB hA.nodup hB.nodup hdisj
    obtain ⟨-, hb2⟩ := splice_bound h.fresh sA sB (a :: tl) nsB hA.bound hB.bound
    refine ⟨hfw, hbw, hnd2, ?_, ?_⟩
    · intro n hn
      rw [klistSplice_fresh]
      exact hb2 n hn
    · rw [hB.cntEq, hA.cntEq, List.length_append]
      exact Nat.add_comm _ _

theorem ringinv_init_source (k : Heap T) (sA : Nat) (hb : sA < k.fresh) :
    RingInv (initListHead k sA) sA 0 [] := by
  refine ⟨?_, ?_, by simp, ?_, rfl⟩
  · show Function.update k.nxt sA sA sA = sA
    exact Function.update_same sA sA k.nxt
  · show Function.update k.prv sA sA sA = sA
    exact Function.update_same sA sA k.prv
  · intro n hn
    rw [List.mem_singleton] at hn
    subst hn
    rw [initListHead_fresh]
    exact hb

theorem ringinv_init_dest (k : Heap T) (sA sB cnt : Nat) (ns : List Nat)
    (hfw : rlinks k.nxt sB ns sB) (hbw : rlinks k.prv sB ns.reverse sB)
    (hnd : (sB :: ns).Nodup) (hbd : ∀ n ∈ sB :: ns, n < k.fresh)
    (hcnt : cnt = ns.length) (hsA : sA ∉ sB :: ns) :
    RingInv (initListHead k sA) sB cnt ns := by
  have hsA2 : sA ∉ sB :: ns.reverse := by
    intro hm
    apply hsA
    rcases List.mem_cons.mp hm with he | he
    · exact List.mem_cons.mpr (Or.inl he)
    · exact List.mem_cons.mpr (Or.inr (List.mem_reverse.mp he))
  refine ⟨?_, ?_, hnd, ?_, hcnt⟩
  · rw [initListHead_nxt]
    exact (rlinks_update_not_mem k.nxt sA sA ns sB sB hsA).mpr hfw
  · rw [initListHead_prv]
    exact (rlinks_update_not_mem k.prv sA sA ns.reverse sB sB hsA2).mpr hbw
  · intro n hn
    rw [initListHead_fresh]
    exact hbd n hn

theorem ringinv_splice_tail_init (h : Heap T) (sA cA sB cB : Nat) (nsA nsB : List Nat)
    (hA : RingInv h sA cA nsA) (hB : RingInv h sB cB nsB)
    (hdisj : ∀ x ∈ sA :: nsA, x ∉ sB :: nsB) :
    RingInv (listSpliceTailInit h sA sB) sB (cB + cA) (nsB ++ nsA) ∧
    RingInv (listSpliceTailInit h sA sB) sA 0 [] := by
  cases nsA with
  | nil =>
    have hemp := listEmptyH_nil h sA cA hA
    unfold listSpliceTailInit
    rw [if_pos hemp]
    have h0 : cA = 0 := hA.cntEq
    constructor
    · rw [List.append_nil, h0]
      exact ⟨hB.fwd, hB.bwd, hB.nodup, hB.bound, hB.cntEq⟩
    · exact ⟨hA.fwd, hA.bwd, hA.nodup, hA.bound, rfl⟩
  | cons a tl =>
    have hemp := listEmptyH_cons h sA cA a tl hA
    have hne' : ¬(listEmptyH h sA = true) := by rw [hemp]; exact Bool.false_ne_true
    unfold listSpliceTailInit
    rw [if_neg hne']
    obtain ⟨hfw, hbw⟩ := ringinv_ksplice_tail h sA cA sB cB (a :: tl) nsB hA hB hdisj
      (List.cons_ne_nil a tl)
    obtain ⟨hnd1, -⟩ := splice_nodup sA sB (a :: tl) nsB hA.nodup hB.nodup hdisj
    obtain ⟨hb1, -⟩ := splice_bound h.fresh sA sB (a :: tl) nsB hA.bound hB.bound
    have hgA := hdisj sA (List.mem_cons_self _ _)
    have hsA_notin : sA ∉ sB :: (nsB ++ a :: tl) := by
      intro hm
      rcases List.mem_cons.mp hm with he | he
      · rw [he] at hgA
        exact hgA (List.mem_cons_self _ _)
      · rcases List.mem_append.mp he with h1 | h1
        · exact hgA (List.mem_cons_of_mem _ h1)
        · exact (List.nodup_cons.mp hA.nodup).1 h1
    constructor
    · exact ringinv_init_dest _ sA sB (cB + cA) (nsB ++ a :: tl) hfw hbw hnd1
        (by intro n hn; rw [klistSplice_fresh]; exact hb1 n hn)
        (by rw [hB.cntEq, hA.cntEq]; exact (List.length_append _ _).symm) hsA_notin
    · exact ringinv_init_source _ sA
        (by rw [klistSplice_fresh]; exact hA.bound sA (List.mem_cons_self _ _))

theorem listSpliceTailInit_val (h : Heap T) (l s : Nat) :
    (listSpliceTailInit h l s).val = h.val := by
  unfold listSpliceTailInit
  split
  · rfl
  · rfl

/-- C7: `spliceAppend(list, init = true)` on a source ring `A` (sentinel `sA`,
nodes `nsA`) and a destination ring `B` (sentinel `sB`, nodes `nsB`) sharing
one heap: the source count becomes 0, the destination count becomes the old
destination count plus the old source count, the destination ring now carries
exactly `nsB ++ nsA` — old destination elements followed by all source
elements in their original order — the source becomes a well-formed empty
ring, and no stored value changes. -/
theorem spliceAppend_detach_moves_all (h : Heap T) (sA cA sB cB : Nat)
    (nsA nsB : List Nat) (hA : RingInv h sA cA nsA) (hB : RingInv h sB cB nsB)
    (hdisj : ∀ x ∈ sA :: nsA, x ∉ sB :: nsB) :
    (spliceAppend h sA cA sB cB true).2.1 = 0 ∧
    (spliceAppend h sA cA sB cB true).2.2 = cB + cA ∧
    RingInv (spliceAppend h sA cA sB cB true).1 sB (cB + cA) (nsB ++ nsA) ∧
    RingInv (spliceAppend h sA cA sB cB true).1 sA 0 [] ∧
    (spliceAppend h sA cA sB cB true).1.val = h.val := by
  obtain ⟨hdest, hsrc⟩ := ringinv_splice_tail_init h sA cA sB cB nsA nsB hA hB hdisj
  exact ⟨rfl, rfl, hdest, hsrc, listSpliceTailInit_val h sA sB⟩

theorem spliceAppend_detach_moves_all_witness :
    (spliceAppend ({ nxt := fun n => if n == 0 then 1 else if n == 1 then 0 else if n == 2 then 3 else 2, prv := fun n => if n == 0 then 1 else if n == 1 then 0 else if n == 2 then 3 else 2, val := fun n => n, fresh := 4, allocd := [1, 3] } : Heap Nat) 0 1 2 1 true).2.1 = 0 ∧
    (spliceAppend ({ nxt := fun n => if n == 0 then 1 else if n == 1 then 0 else if n == 2 then 3 else 2, prv := fun n => if n == 0 then 1 else if n == 1 then 0 else if n == 2 then 3 else 2, val := fun n => n, fresh := 4, allocd := [1, 3] } : Heap Nat) 0 1 2 1 true).2.2 = 2 ∧
    RingInv (spliceAppend ({ nxt := fun n => if n == 0 then 1 else if n == 1 then 0 else if n == 2 then 3 else 2, prv := fun n => if n == 0 then 1 else if n == 1 then 0 else if n == 2 then 3 else 2, val := fun n => n, fresh := 4, allocd := [1, 3] } : Heap Nat) 0 1 2 1 true).1 2 2 [3, 1] ∧
    RingInv (spliceAppend ({ nxt := fun n => if n == 0 then 1 else if n == 1 then 0 else if n == 2 then 3 else 2, prv := fun n => if n == 0 then 1 else if n == 1 then 0 else if n == 2 then 3 else 2, val := fun n => n, fresh := 4, allocd := [1, 3] } : Heap Nat) 0 1 2 1 true).1 0 0 [] ∧
    (spliceAppend ({ nxt := fun n => if n == 0 then 1 else if n == 1 then 0 else if n == 2 then 3 else 2, prv := fun n => if n == 0 then 1 else if n == 1 then 0 else if n == 2 then 3 else 2, val := fun n => n, fresh := 4, allocd := [1, 3] } : Heap Nat) 0 1 2 1 true).1.val =
      ({ nxt := fun n => if n == 0 then 1 else if n == 1 then 0 else if n == 2 then 3 else 2, prv := fun n => if n == 0 then 1 else if n == 1 then 0 else if n == 2 then 3 else 2, val := fun n => n, fresh := 4, allocd := [1, 3] } : Heap Nat).val :=
  spliceAppend_detach_moves_all { nxt := fun n => if n == 0 then 1 else if n == 1 then 0 else if n == 2 then 3 else 2, prv := fun n => if n == 0 then 1 else if n == 1 then 0 else if n == 2 then 3 else 2, val := fun n => n, fresh := 4, allocd := [1, 3] } 0 1 2 1 [1] [3]
    ⟨⟨rfl, rfl⟩, ⟨rfl, rfl⟩, by decide, by decide, rfl⟩
    ⟨⟨rfl, rfl⟩, ⟨rfl, rfl⟩, by decide, by decide, rfl⟩
    (by decide)

/-- C10: with `init = false`, both `spliceAppend` and `spliceInsert` add the
source count onto the destination count while the source's own count stays at
`cA` (it is not reset to zero), and the destination ring really carries all
`cA + cB` shared elements: `nsB ++ nsA` for the tail splice and `nsA ++ nsB`
for the front splice. -/
theorem splice_no_detach_keeps_source_count (h : Heap T) (sA cA sB cB : Nat)
    (nsA nsB : List Nat) (hA : RingInv h sA cA nsA) (hB : RingInv h sB cB nsB)
    (hdisj : ∀ x ∈ sA :: nsA, x ∉ sB :: nsB) :
    (spliceAppend h sA cA sB cB false).2.1 = cA ∧
    (spliceAppend h sA cA sB cB false).2.2 = cB + cA ∧
    RingInv (spliceAppend h sA cA sB cB false).1 sB (cB + cA) (nsB ++ nsA) ∧
    (spliceInsert h sA cA sB cB false).2.1 = cA ∧
    (spliceInsert h sA cA sB cB false).2.2 = cB + cA ∧
    RingInv (spliceInsert h sA cA sB cB false).1 sB (cB + cA) (nsA ++ nsB) :=
  ⟨rfl, rfl, ringinv_splice_tail h sA cA sB cB nsA nsB hA hB hdisj, rfl, rfl,
    ringinv_splice_front h sA cA sB cB nsA nsB hA hB hdisj⟩

theorem splice_no_detach_keeps_source_count_witness :
    (spliceAppend ({ nxt := fun n => if n == 0 then 1 else if n == 1 then 0 else if n == 2 then 3 else 2, prv := fun n => if n == 0 then 1 else if n == 1 then 0 else if n == 2 then 3 else 2, val := fun n => n, fresh := 4, allocd := [1, 3] } : Heap Nat) 0 1 2 1 false).2.1 = 1 ∧
    (spliceAppend ({ nxt := fun n => if n == 0 then 1 else if n == 1 then 0 else if n == 2 then 3 else 2, prv := fun n => if n == 0 then 1 else if n == 1 then 0 else if n == 2 then 3 else 2, val := fun n => n, fresh := 4, allocd := [1, 3] } : Heap Nat) 0 1 2 1 false).2.2 = 2 ∧
    RingInv (spliceAppend ({ nxt := fun n => if n == 0 then 1 else if n == 1 then 0 else if n == 2 then 3 else 2, prv := fun n => if n == 0 then 1 else if n == 1 then 0 else if n == 2 then 3 else 2, val := fun n => n, fresh := 4, allocd := [1, 3] } : Heap Nat) 0 1 2 1 false).1 2 2 [3, 1] ∧
    (spliceInsert ({ nxt := fun n => if n == 0 then 1 else if n == 1 then 0 else if n == 2 then 3 else 2, prv := fun n => if n == 0 then 1 else if n == 1 then 0 else if n == 2 then 3 else 2, val := fun n => n, fresh := 4, allocd := [1, 3] } : Heap Nat) 0 1 2 1 false).2.1 = 1 ∧
    (spliceInsert ({ nxt := fun n => if n == 0 then 1 else if n == 1 then 0 else if n == 2 then 3 else 2, prv := fun n => if n == 0 then 1 else if n == 1 then 0 else if n == 2 then 3 else 2, val := fun n => n, fresh := 4, allocd := [1, 3] } : Heap Nat) 0 1 2 1 false).2.2 = 2 ∧
    RingInv (spliceInsert ({ nxt := fun n => if n == 0 then 1 else if n == 1 then 0 else if n == 2 then 3 else 2, prv := fun n => if n == 0 then 1 else if n == 1 then 0 else if n == 2 then 3 else 2, val := fun n => n, fresh := 4, allocd := [1, 3] } : Heap Nat) 0 1 2 1 false).1 2 2 [1, 3] :=
  splice_no_detach_keeps_source_count { nxt := fun n => if n == 0 then 1 else if n == 1 then 0 else if n == 2 then 3 else 2, prv := fun n => if n == 0 then 1 else if n == 1 then 0 else if n == 2 then 3 else 2, val := fun n => n, fresh := 4, allocd := [1, 3] } 0 1 2 1 [1] [3]
    ⟨⟨rfl, rfl⟩, ⟨rfl, rfl⟩, by decide, by decide, rfl⟩
    ⟨⟨rfl, rfl⟩, ⟨rfl, rfl⟩, by decide, by decide, rfl⟩
    (by decide)

/-! ### MIME lookup -/

theorem mime_foldl_filter (ext : String) (l : List (String × String)) :
    ∀ acc : List String,
      l.foldl (fun result t => if ext == t.1 then result ++ [t.2] else result) acc =
        acc ++ (l.filter (fun t => ext == t.1)).map Prod.snd := by
  induction l with
  | nil => intro acc; simp
  | cons x xs ih =>
    intro acc
    by_cases hx : (ext == x.1) = true
    · have hf : List.filter (fun t => ext == t.1) (x :: xs)
          = x :: List.filter (fun t => ext == t.1) xs := by simp [hx]
      rw [List.foldl_cons, if_pos hx, ih, hf]
      simp
    · have hf : List.filter (fun t => ext == t.1) (x :: xs)
          = List.filter (fun t => ext == t.1) xs := by
        simp only [List.filter_cons]
        rw [if_neg hx]
      rw [List.foldl_cons, if_neg hx, ih, hf]

/-- C9: for every extension string, `getMimeTypesForFileExtension` returns
exactly the `mimeType` of every table row whose `fileExtension` matches
exactly (case-sensitively), in table order with duplicates preserved; an
extension matching no row yields the empty result. -/
theorem mime_lookup_exact_matches (ext : String) :
    getMimeTypesForFileExtension ext =
      (mimeTable.filter (fun t => ext == t.1)).map Prod.snd ∧
    ((∀ t ∈ mimeTable, ext ≠ t.1) → getMimeTypesForFileExtension ext = []) := by
  have h1 : getMimeTypesForFileExtension ext =
      (mimeTable.filter (fun t => ext == t.1)).map Prod.snd := by
    unfold getMimeTypesForFileExtension
    rw [mime_foldl_filter]
    rfl
  refine ⟨h1, fun hno => ?_⟩
  rw [h1, List.filter_eq_nil_iff.mpr ?_]
  · rfl
  · intro t ht
    simp only [beq_iff_eq]
    exact hno t ht

set_option maxRecDepth 10000 in
theorem mime_lookup_exact_matches_witness :
    (getMimeTypesForFileExtension "aif" =
      (mimeTable.filter (fun t => "aif" == t.1)).map Prod.snd ∧
    ((∀ t ∈ mimeTable, "aif" ≠ t.1) → getMimeTypesForFileExtension "aif" = [])) ∧
    getMimeTypesForFileExtension "AIF" = [] :=
  ⟨mime_lookup_exact_matches "aif",
   (mime_lookup_exact_matches "AIF").2 (by decide)⟩

end Carla
